import Mathlib

/-!
# Verification of the micro-micro batch resolution core

Shallow embedding of the repository's task/result contracts, the
`TaskService` abstraction (`src/taskServices.ts` and its later iteration),
the cross-service requirement validator
(`#validateRequestDataForServices` in the final `ip.ts` iteration), and the
`RequestTaskBatchResolver` state machine (final iteration of
`src/endpoints/ip/RequestTaskBatchResolver.ts`), together with theorems
settling the frozen claims about them.

JavaScript objects used as string-keyed maps are modelled as insertion-ordered
association lists (`List (String × α)`): assignment to a fresh key appends,
assignment to an existing key overwrites in place, `Object.keys` is the list
of first components.
-/

namespace MicroMicro

/-- Association-list lookup, mirroring JS `obj[key]` (first match). -/
def lookupA {α : Type} (l : List (String × α)) (k : String) : Option α :=
  match l with
  | [] => none
  | (k', v) :: rest => if k' = k then some v else lookupA rest k

/-- Association-list assignment, mirroring JS `obj[key] = v`: overwrite the
existing entry in place, or append a new entry. -/
def upsertA {α : Type} (l : List (String × α)) (k : String) (v : α) :
    List (String × α) :=
  match l with
  | [] => [(k, v)]
  | (k', v') :: rest =>
      if k' = k then (k, v) :: rest else (k', v') :: upsertA rest k v

/-- The keys of an association list, mirroring JS `Object.keys`. -/
def keysA {α : Type} (l : List (String × α)) : List String :=
  l.map Prod.fst

/-! ## JavaScript runtime values

Only the fragments of the JS value universe that the validated payloads and
task data actually range over. `undef` stands for `undefined` (the result of
reading an absent property). -/

inductive JsVal : Type
  | str (s : String)
  | num (n : Int)
  | bool (b : Bool)
  | undef
  deriving DecidableEq, Repr

/-- JS truthiness for the modelled values (`!x` in the source is `¬ truthy`).
`''`, `0`, `false` and `undefined` are falsy. -/
def JsVal.truthy : JsVal → Bool
  | .str s => s ≠ ""
  | .num n => n ≠ 0
  | .bool b => b
  | .undef => false

/-- JS `typeof` for the modelled values. -/
def JsVal.typeofStr : JsVal → String
  | .str _ => "string"
  | .num _ => "number"
  | .bool _ => "boolean"
  | .undef => "undefined"

/-! ## Task contract (`taskServices.ts`, both iterations) -/

/-- `TaskResultStatus`: `'done' | 'fail' | 'reject'`. -/
inductive TaskResultStatus : Type
  | done
  | fail
  | reject
  deriving DecidableEq, Repr

/-- `TaskResultStatuses = ['done', 'fail', 'reject']` (later iteration). -/
def TaskResultStatuses : List String := ["done", "fail", "reject"]

/-- A `Task`: `{id, requestId, serviceName, data}`. (The earlier
`src/taskServices.ts` iteration names the third field `service`; the logic
using it is otherwise identical, so a single structure models both.) -/
structure Task : Type where
  id : String
  requestId : String
  serviceName : String
  data : List (String × JsVal)
  deriving DecidableEq, Repr

/-- The `issues` member of a result payload.  The source sometimes stores a
`string[]` (e.g. the resolver's failed-event synthesis) and sometimes a bare
string (the `catch` branch of `do` in `src/taskServices.ts` stores
`` `${error}` ``), so both are representable. -/
inductive IssuesVal : Type
  | list (l : List String)
  | str (s : String)
  deriving DecidableEq, Repr

/-- A result payload `{data?, error?, issues?}` as produced by the task
services and carried by completed-queue events. -/
structure RData : Type where
  data : Option (List (String × JsVal)) := none
  error : Option String := none
  issues : Option IssuesVal := none
  deriving DecidableEq, Repr

/-- The `TaskResult` class: `{id, requestId, status, resultData}` with a
*required* status (the constructor always sets all four fields;
`resultData = result || {}`). -/
structure TaskResult : Type where
  id : String
  requestId : String
  status : TaskResultStatus
  resultData : RData
  deriving DecidableEq, Repr

/-- The invariant documented in the `TaskResult` constructor's comment
(`taskServices.ts`): `done` results never carry `issues`, `fail`/`reject`
results must carry at least one issue string. -/
def resultStatusOk (r : TaskResult) : Prop :=
  (r.status = .done → r.resultData.issues = none) ∧
  (r.status = .fail ∨ r.status = .reject →
    ∃ l, r.resultData.issues = some (.list l) ∧ l ≠ [])

instance (r : TaskResult) : Decidable (resultStatusOk r) := by
  unfold resultStatusOk
  have : ∀ o : Option IssuesVal,
      Decidable (∃ l, o = some (.list l) ∧ l ≠ []) := by
    intro o
    match o with
    | none => exact isFalse (by simp)
    | some (.str s) => exact isFalse (by simp)
    | some (.list []) => exact isFalse (by simp)
    | some (.list (x :: xs)) => exact isTrue ⟨x :: xs, by simp⟩
  exact instDecidableAnd

/-! ## Task service abstraction

`TaskService` in the source obtains its name and required-data schema from
decorator metadata (`getMetadataName` / `getMetadataRequiredData`); the
embedding passes them explicitly as a `ServiceConfig`. -/

/-- The per-service configuration visible to `validateTask` and `do`:
the service's registered `name` and its `requiredData` schema
(key → expected primitive shape; `validateTask` never reads the shapes). -/
structure ServiceConfig : Type where
  name : String
  requiredData : Option (List (String × String)) := none
  deriving DecidableEq, Repr

/-- `TaskService.validateTask` (the later `taskServices` iteration, lines
97–124; the `src/taskServices.ts` iteration is logically identical with the
field named `service`): collects one issue string per failed check.  The
required-data check is `if (!data[key])`: plain JS truthiness of the value,
with no comparison against the declared shape.  The source returns `true`
for an empty issue list and `{taskIssues}` otherwise; the embedding returns
the list itself (valid ⟺ `[]`). -/
def validateTask (cfg : ServiceConfig) (task : Task) : List String :=
  (if task.id = "" then ["Task missing id"] else []) ++
  (if task.requestId = "" then ["Task missing requestId"] else []) ++
  (if task.serviceName ≠ cfg.name then
    ["Task addressed to service " ++ task.serviceName ++
      " sent to incorrect service " ++ cfg.name]
   else []) ++
  (match cfg.requiredData with
   | none => []
   | some rd =>
       rd.filterMap fun kv =>
         if ((lookupA task.data kv.1).getD .undef).truthy then none
         else some ("Task missing `" ++ kv.1 ++ "` data required by " ++ cfg.name))

/-- Possible behaviours of a service's `processTask` when invoked: return a
(promise of a) `TaskResult`, throw synchronously, or return a promise that
rejects asynchronously.  For a throw/rejection, `msg` is the string coercion
of the thrown value. -/
inductive ExecBehavior : Type
  | returns (r : TaskResult)
  | throwsSync (msg : String)
  | rejectsAsync (msg : String)
  deriving DecidableEq, Repr

/-- What a rejected promise carries: a `fail` `TaskResult` (built by the
`catch` branch of `do` in `src/taskServices.ts`) or a raw propagated error. -/
inductive RejectPayload : Type
  | failResult (r : TaskResult)
  | rawError (msg : String)
  deriving DecidableEq, Repr

/-- The observable fate of the promise returned by `do`: resolved with a
`TaskResult`, rejected, or never settled.  A promise settles at most once;
later `resolve`/`reject` calls are no-ops. -/
inductive Settle : Type
  | resolvedWith (r : TaskResult)
  | rejectedWith (e : RejectPayload)
  | pending
  deriving DecidableEq, Repr

/-- `TaskService.do` from the later `taskServices` iteration (lines 126–147).
Returns (processTask-was-invoked?, fate of the returned promise).

Source structure: inside `new Promise(resolve => ...)`, a failed validation
calls `resolve(reject-result)` but does **not** return, so
`this.processTask(task).then(result => resolve(result))` still runs; the
later `resolve` is a no-op on an already-resolved promise.  A synchronous
throw from `processTask` rejects the promise (executor throw) unless it was
already resolved; an asynchronous rejection is never caught (no `.catch`),
leaving a validation-passing promise pending forever. -/
def doP10 (cfg : ServiceConfig) (task : Task) (processTask : ExecBehavior) :
    Bool × Settle :=
  let issues := validateTask cfg task
  if issues ≠ [] then
    (true, .resolvedWith ⟨task.id, task.requestId, .reject,
      { issues := some (.list issues) }⟩)
  else
    (true, match processTask with
      | .returns r => .resolvedWith r
      | .throwsSync msg => .rejectedWith (.rawError msg)
      | .rejectsAsync _ => .pending)

/-- `TaskService.do` from `src/taskServices.ts` (lines 117–132).  Same
missing-return validation structure; execution is wrapped in
`try { resolve(this.processTask(task)) } catch { reject(fail-TaskResult) }`,
so a synchronous throw rejects the promise with a `fail` `TaskResult`
(whose `issues` member is the bare coerced string, not an array), and an
asynchronous rejection is adopted by `resolve` and rejects the promise with
the raw error. -/
def doTS (cfg : ServiceConfig) (task : Task) (processTask : ExecBehavior) :
    Bool × Settle :=
  let issues := validateTask cfg task
  if issues ≠ [] then
    (true, .resolvedWith ⟨task.id, task.requestId, .reject,
      { issues := some (.list issues) }⟩)
  else
    (true, match processTask with
      | .returns r => .resolvedWith r
      | .throwsSync msg => .rejectedWith (.failResult
          ⟨task.id, task.requestId, .fail, { issues := some (.str msg) }⟩)
      | .rejectsAsync msg => .rejectedWith (.rawError msg))

/-- JS template-literal string coercion of the modelled values. -/
def JsVal.coerceStr : JsVal → String
  | .str s => s
  | .num n => toString n
  | .bool b => if b then "true" else "false"
  | .undef => "undefined"

/-- Map one of the three status strings to a `TaskResultStatus`
(`const status = isValid ? mockResult : 'reject'` coerces the validated
string; other strings never reach this point). -/
def statusOfString (s : String) : TaskResultStatus :=
  if s = "done" then .done else if s = "fail" then .fail else .reject

/-- `JobWorkerMock.processTask`: validates `data.mockResult` against
`TaskResultStatuses`, throws for `'fail'`, and otherwise returns a
`TaskResult` whose status echoes `mockResult` (or `reject` with an `error`
member — not `issues` — when invalid).  `.error msg` models the synchronous
throw. -/
def mockProcessTask (task : Task) : Except String TaskResult :=
  let mockResult := (lookupA task.data "mockResult").getD .undef
  let isValid := match mockResult with
    | .str s => TaskResultStatuses.contains s
    | _ => false
  let returnData : RData :=
    if isValid then { data := some [("mockResult", mockResult)] }
    else { error := some ("Passed invalid mockResult '" ++ mockResult.coerceStr ++
        "'. Must be one of: done,fail,reject.") }
  if mockResult = .str "fail" then
    .error "Error: mock-worker failing as directed"
  else
    let status := if isValid then
        statusOfString (match mockResult with | .str s => s | _ => "reject")
      else .reject
    .ok ⟨task.id, task.requestId, status, returnData⟩

/-- The `ExecBehavior` that `JobWorkerMock.processTask` presents to `do`:
its synchronous throw surfaces as `throwsSync`, otherwise it returns a
resolved promise. -/
def mockBehavior (task : Task) : ExecBehavior :=
  match mockProcessTask task with
  | .error msg => .throwsSync msg
  | .ok r => .returns r

/-! ## Requirement validator

`#validateRequestDataForServices` from the final `ip.ts` iteration
(the one that handles `oneOf` and receives the bundled `requestData`). -/

/-- One entry of a registered service's `requiredData` object: either a
plain `field → expectedShape` string, or the value of the special `oneOf`
key — a list of objects whose keys are the alternative fields. -/
inductive ReqEntry : Type
  | shape (s : String)
  | group (alts : List (List (String × String)))
  deriving DecidableEq, Repr

/-- An element of `registeredServices`: `{name, description, requiredData?}`. -/
structure RegisteredService : Type where
  name : String
  description : String := ""
  requiredData : Option (List (String × ReqEntry)) := none
  deriving Repr

/-- A value of the `requirements` map: for a plain field key, the inner
object `shape → [serviceNames]`; for the `oneOf` key, the inner object
`serviceName → requiredData.oneOf`. -/
inductive ReqBucket : Type
  | shapes (inner : List (String × List String))
  | groups (inner : List (String × ReqEntry))
  deriving DecidableEq, Repr

/-- `Object.keys(requirements[key]).length`, uniform over both buckets. -/
def ReqBucket.innerCount : ReqBucket → Nat
  | .shapes inner => inner.length
  | .groups inner => inner.length

/-- JS string coercion used when a `ReqEntry` is itself used as an object
key (`requirements[key][requiredData[key]]`).  A `group` under a non-`oneOf`
key never occurs in the repository's registry; its coercion is modelled by
the generic object-array coercion. -/
def entryShapeStr : ReqEntry → String
  | .shape s => s
  | .group _ => "[object Object]"

/-- Add one `requiredData` entry of service `name` to the requirements map
(the body of the `Object.keys(requiredData).forEach` loop): the `oneOf` key
is special-cased into a per-service bucket, any other key is grouped by
expected shape with the service name pushed onto that shape's list. -/
def addReq (name : String) (reqs : List (String × ReqBucket))
    (kv : String × ReqEntry) : List (String × ReqBucket) :=
  if kv.1 = "oneOf" then
    match lookupA reqs "oneOf" with
    | some (.groups inner) =>
        upsertA reqs "oneOf" (.groups (upsertA inner name kv.2))
    | some (.shapes _) =>
        -- unreachable: the "oneOf" key is only ever written by this branch
        upsertA reqs "oneOf" (.groups [(name, kv.2)])
    | none => reqs ++ [("oneOf", .groups [(name, kv.2)])]
  else
    let sh := entryShapeStr kv.2
    match lookupA reqs kv.1 with
    | some (.shapes inner) =>
        upsertA reqs kv.1 (.shapes
          (match lookupA inner sh with
           | some names => upsertA inner sh (names ++ [name])
           | none => inner ++ [(sh, [name])]))
    | some (.groups _) =>
        -- unreachable: a groups bucket exists only at the "oneOf" key
        upsertA reqs kv.1 (.shapes [(sh, [name])])
    | none => reqs ++ [(kv.1, .shapes [(sh, [name])])]

/-- Build the requirements map for the requested services, mirroring the
first loop of `#validateRequestDataForServices`.  A requested service absent
from the registry throws (`Error(...)`), modelled by `Except.error`; a
service without `requiredData` is skipped (`continue`). -/
def buildRequirements (registry : List RegisteredService) :
    List String → List (String × ReqBucket) →
    Except String (List (String × ReqBucket))
  | [], acc => .ok acc
  | s :: rest, acc =>
      match registry.find? (fun item => item.name = s) with
      | none => .error ("TaskService '" ++ s ++
          "' validated as available but not found in TaskService registry")
      | some rs =>
          match rs.requiredData with
          | none => buildRequirements registry rest acc
          | some rd => buildRequirements registry rest (rd.foldl (addReq rs.name) acc)

/-- The conflict scan: one (placeholder `'issue'`) string per requirements
key whose inner object has more than one key.  Note this also counts the
`oneOf` bucket, whose inner keys are *service names*, not shapes. -/
def requirementConflicts (reqs : List (String × ReqBucket)) : List String :=
  (reqs.filter fun kv => kv.2.innerCount > 1).map fun _ => "issue"

/-- The fixed conflict response message (the `@TODO` to describe individual
conflicts is unimplemented; the service names are not included). -/
def conflictMsg : String :=
  "The services you've requested have different request body data requirements. To resolve this, send multiple requests, each with services that have compatible data requirements."

/-- The issues contributed by one requirements key in the missing-data pass:
for the literal key `"oneOf"`, one issue per alternative group none of whose
fields is present; for a plain key, a missing-key issue or a
`typeof`-mismatch issue against the *first* recorded shape. -/
def keyIssues (requestData : List (String × JsVal)) (providedKeys : List String)
    (key : String) (bucket : ReqBucket) : List String :=
  if key = "oneOf" then
    match bucket with
    | .groups inner =>
        inner.foldl (fun acc sv =>
          acc ++ (match sv.2 with
            | .group pairs =>
                pairs.filterMap fun pair =>
                  let pairKeys := pair.map Prod.fst
                  if pairKeys.any (fun o => providedKeys.contains o) then none
                  else some (sv.1 ++ " service requires either " ++
                    String.intercalate " or " pairKeys ++
                    ", but neither are included with the request body")
            | .shape _ => [])) []
        -- a string stored under `oneOf` would make the source throw
        -- (`forEach` on a string); it never occurs in the repository's registry
    | .shapes _ => []   -- unreachable: "oneOf" always holds a groups bucket
  else
    if providedKeys.contains key then
      let providedType := ((lookupA requestData key).getD .undef).typeofStr
      let requiredType := match bucket with
        | .shapes inner => (inner.head?.map Prod.fst).getD ""
        | .groups _ => ""   -- unreachable: non-"oneOf" keys hold shapes buckets
      if providedType ≠ requiredType then
        ["'" ++ key ++ "' in your request body has type '" ++ providedType ++
          "', but is required to have type '" ++ requiredType ++ "'."]
      else []
    else
      [key ++ " is missing from your request body but is required for some requested services."]

/-- The full missing-data pass over the requirements map, in key order. -/
def missingDataIssues (reqs : List (String × ReqBucket))
    (requestData : List (String × JsVal)) : List String :=
  let providedKeys := requestData.map Prod.fst
  reqs.foldl (fun acc kv => acc ++ keyIssues requestData providedKeys kv.1 kv.2) []

/-- The validator's return value: `true` or a `RouteHandlerResponse`. -/
inductive ValidateResult : Type
  | ok
  | response (code : Nat) (message : String)
  deriving DecidableEq, Repr

/-- `#validateRequestDataForServices` (final `ip.ts` iteration): build the
requirements map, fail on any conflict with the fixed 400 message, then
collect missing-data issues and fail with their join, else succeed.
`Except.error` models the registry-miss throw. -/
def validateRequestDataForServices (registry : List RegisteredService)
    (requestData : List (String × JsVal)) (serviceTasks : List String) :
    Except String ValidateResult :=
  (buildRequirements registry serviceTasks []).map fun reqs =>
    if requirementConflicts reqs ≠ [] then .response 400 conflictMsg
    else
      let issues := missingDataIssues reqs requestData
      if issues ≠ [] then .response 400 (String.intercalate "\n " issues)
      else .ok

/-- Outcome of `doTasks`' dispatch step: an early error response, or the
batch of tasks sent to the queue. -/
inductive DispatchOutcome : Type
  | earlyResponse (code : Nat) (message : String)
  | queued (tasks : List Task)
  deriving Repr

/-- The dispatch step of `doTasks` after service-name validation (final
`ip.ts` iteration): run the requirement validator, return its error response
unchanged, and only otherwise build one task per requested service — id
`hashHex(requestId + index)` (the hash is passed in as a function), shared
`requestId`, the service's name, and the bundled `requestData`. -/
def doTasksDispatch (hashHex : String → String)
    (registry : List RegisteredService) (requestData : List (String × JsVal))
    (serviceTasks : List String) (requestId : String) :
    Except String DispatchOutcome :=
  (validateRequestDataForServices registry requestData serviceTasks).map fun
    | .response c m => .earlyResponse c m
    | .ok => .queued (serviceTasks.enum.map fun p =>
        { id := hashHex (requestId ++ toString p.1),
          requestId := requestId,
          serviceName := p.2,
          data := requestData })

/-- The `@Service` registration of `RDAPService`: requires one of
`ip`/`domain` via a `oneOf` group. -/
def rdapRegistered : RegisteredService :=
  { name := "rdap",
    description := "Lookup RDAP information for a domain or IP address",
    requiredData := some [("oneOf", .group [[("ip", "string"), ("domain", "string")]])] }

/-- The `@Service` registration of `JobWorkerMock`. -/
def mockRegistered : RegisteredService :=
  { name := "mock-worker",
    description := "Mock job queue worker results",
    requiredData := some [("mockResult", .shape "string")] }

/-! ## Batch resolver

`RequestTaskBatchResolver` (final iteration in
`src/endpoints/ip/RequestTaskBatchResolver.ts`), modelled as a state
machine driven by scheduler actions: queue-event deliveries, the expiry of
the batch timer, and the deferred (`setTimeout 0`) `#close` cleanup
callbacks.  The model assumes `results()` has been called once, so both
lifecycle `once`-listeners are registered from the start; `promise` is the
settled value of the promise it returned (`none` while unsettled — a promise
settles at most once, so later `resolve` calls leave it unchanged). -/

/-- The `returnvalue` payload of a completed queue event, and likewise the
shape of the records stored in `#jobResults`: the failed-event synthesis
stores `status: 'fail'`, while the removed-event synthesis stores *no*
status member at all, hence the `Option`. -/
structure ReturnValue : Type where
  id : String
  requestId : String
  status : Option TaskResultStatus
  resultData : RData
  deriving DecidableEq, Repr

/-- The three queue event kinds the resolver consumes. -/
inductive QueueEvent : Type
  | completed (returnvalue : ReturnValue)
  | failed (jobId : String) (failedReason : String)
  | removed (jobId : String)
  deriving DecidableEq, Repr

/-- `TaskBatch`: `{requestId, tasks}`. -/
structure TaskBatch : Type where
  requestId : String
  tasks : List Task
  deriving DecidableEq, Repr

/-- One value of `TaskBatchResult.services`: `{id, status, result}` —
`status` is whatever the stored record carried (possibly absent). -/
structure SvcEntry : Type where
  id : String
  status : Option TaskResultStatus
  result : RData
  deriving DecidableEq, Repr

/-- `TaskBatchResult`: `{services: {serviceName: SvcEntry}}`. -/
structure TaskBatchResult : Type where
  services : List (String × SvcEntry)
  deriving DecidableEq, Repr

/-- `TaskBatchError`: `{error: {code, message}}`. -/
structure TaskBatchError : Type where
  code : Nat
  message : String
  deriving DecidableEq, Repr

/-- The error produced on the timeout path. -/
def gatewayTimeoutError : TaskBatchError :=
  ⟨504, "One or more services timed out while processing the request."⟩

/-- `#ownsTask`: completed events are owned by `requestId` equality against
the event's `returnvalue`; failed/removed events by scanning the batch's
tasks for the event's `jobId`. -/
def ownsTask (batch : TaskBatch) : QueueEvent → Bool
  | .completed rv => batch.requestId == rv.requestId
  | .failed jobId _ => batch.tasks.any fun t => t.id == jobId
  | .removed jobId => batch.tasks.any fun t => t.id == jobId

/-- One `.next()` call on the `#pendingTaskCountDown` generator.  The state
is `some k` when the generator will next run its loop with `tasksLeft = k`
(initially the batch size; after a `yield tasksLeft` the suspended value),
`none` once finished.  Returns `((value, done), nextState)`:
`some 0` with `done` for the explicit `return 0`, `none` (JS `undefined`)
with `done` when the `while` guard fails or the generator is exhausted. -/
def countDownNext : Option Nat → (Option Nat × Bool) × Option Nat
  | some 0 => ((none, true), none)
  | some 1 => ((some 0, true), none)
  | some (k + 2) => ((some (k + 1), false), some (k + 1))
  | none => ((none, true), none)

/-- The resolver's observable state.  Besides the source's fields
(`#jobResults`, the generator, the listener registrations, the timer and the
settled promise value), the model counts `resolve` calls, countdown
decrements, `#close()` invocations and executed cleanup callbacks, and flags
the uncaught exception thrown when `#mapResultsToServiceNames` destructures
a missing record. -/
structure RState : Type where
  jobResults : List (String × ReturnValue)
  countDown : Option Nat
  doneListener : Bool
  timeoutListener : Bool
  timerArmed : Bool
  subCompleted : Bool
  subFailed : Bool
  subRemoved : Bool
  promise : Option (TaskBatchResult ⊕ TaskBatchError)
  resolveCalls : Nat
  decrements : Nat
  closeCalls : Nat
  cleanupsRun : Nat
  crashed : Bool
  deriving DecidableEq, Repr

/-- State after the constructor ran and `results()` registered its two
lifecycle `once`-listeners: timer armed, all three queue listeners
subscribed, empty `#jobResults`, countdown at the batch size. -/
def initState (batch : TaskBatch) : RState :=
  { jobResults := []
    countDown := some batch.tasks.length
    doneListener := true
    timeoutListener := true
    timerArmed := true
    subCompleted := true
    subFailed := true
    subRemoved := true
    promise := none
    resolveCalls := 0
    decrements := 0
    closeCalls := 0
    cleanupsRun := 0
    crashed := false }

/-- `#mapResultsToServiceNames`: fold over the batch's tasks, looking each
task's record up by task id and keying it by the task's `serviceName`.
`none` models the `TypeError` thrown when a task has no record (the source
destructures `undefined`). -/
def mapResultsToServiceNames (batch : TaskBatch)
    (jobResults : List (String × ReturnValue)) :
    Option (List (String × SvcEntry)) :=
  batch.tasks.foldlM
    (fun acc t => (lookupA jobResults t.id).map fun rv =>
      upsertA acc t.serviceName ⟨t.id, rv.status, rv.resultData⟩)
    []

/-- A `resolve(v)` call on the promise returned by `results()`: the first
call settles it, later calls are counted but change nothing. -/
def resolveWith (s : RState) (v : TaskBatchResult ⊕ TaskBatchError) : RState :=
  { s with promise := some (s.promise.getD v),
           resolveCalls := s.resolveCalls + 1 }

/-- `this.#lifecycle.emit('done')`: if the `once`-listener from `results()`
is still registered it is removed and run — `clearTimeout`, then
`resolve(this.#mapResultsToServiceNames())`, then `this.#close()` (which
only schedules the deferred cleanup).  If building the result map throws,
the exception escapes before `resolve` is reached. -/
def emitDone (batch : TaskBatch) (s : RState) : RState :=
  if s.doneListener then
    let s₁ := { s with doneListener := false, timerArmed := false }
    match mapResultsToServiceNames batch s₁.jobResults with
    | some services =>
        let s₂ := resolveWith s₁ (.inl ⟨services⟩)
        { s₂ with closeCalls := s₂.closeCalls + 1 }
    | none => { s₁ with crashed := true }
  else s

/-- `this.#lifecycle.emit('timeout')`: if the `once`-listener is still
registered, resolve with the 504 error and schedule cleanup.  Unlike the
done path, the timer handler does not clear anything synchronously. -/
def emitTimeout (s : RState) : RState :=
  if s.timeoutListener then
    let s₁ := { s with timeoutListener := false }
    let s₂ := resolveWith s₁ (.inr gatewayTimeoutError)
    { s₂ with closeCalls := s₂.closeCalls + 1 }
  else s

/-- `#decrementPendingTasks`: advance the countdown generator and emit
`'done'` when `tasksLeft.value === 0 || tasksLeft.done`. -/
def decrementPendingTasks (batch : TaskBatch) (s : RState) : RState :=
  let next := countDownNext s.countDown
  let s₁ := { s with countDown := next.2, decrements := s.decrements + 1 }
  if next.1.1 = some 0 ∨ next.1.2 = true then emitDone batch s₁ else s₁

/-- `#eventListenerCompleted`: membership check, then *unconditionally*
store the event's `returnvalue` under `returnvalue.id` (overwriting any
existing record) and decrement. -/
def eventListenerCompleted (batch : TaskBatch) (s : RState)
    (rv : ReturnValue) : RState :=
  if ownsTask batch (.completed rv) then
    decrementPendingTasks batch
      { s with jobResults := upsertA s.jobResults rv.id rv }
  else s

/-- `#eventListenerFailed`: membership check, then store a synthesized
`fail` record with the failure reason as sole issue, and decrement. -/
def eventListenerFailed (batch : TaskBatch) (s : RState)
    (jobId failedReason : String) : RState :=
  if ownsTask batch (.failed jobId failedReason) then
    let entry : ReturnValue :=
      ⟨jobId, batch.requestId, some .fail,
        { issues := some (.list [failedReason]) }⟩
    decrementPendingTasks batch
      { s with jobResults := upsertA s.jobResults jobId entry }
  else s

/-- `#eventListenerRemoved`: membership check; a job with an existing record
is a no-op, otherwise store a synthesized record noting the unexplained
removal — with `issues` but *no* `status` member — and decrement. -/
def eventListenerRemoved (batch : TaskBatch) (s : RState)
    (jobId : String) : RState :=
  if ownsTask batch (.removed jobId) then
    if (lookupA s.jobResults jobId).isSome then s
    else
      let entry : ReturnValue :=
        ⟨jobId, batch.requestId, none,
          { issues := some (.list
            ["Job removed from queue before processing for unknown reason"]) }⟩
      decrementPendingTasks batch
        { s with jobResults := upsertA s.jobResults jobId entry }
  else s

/-- The deferred body of `#close`: drop both lifecycle listeners
(`removeAllListeners`), call
`queueEvents.removeListener('completed', #eventListenerCompleted)` and, for
both `'failed'` and `'removed'`, `removeListener(_, #eventListenerFailed)` —
which detaches the failed handler but matches nothing on `'removed'`, so the
`#eventListenerRemoved` subscription survives — and finish the countdown
generator (`.return(0)`). -/
def closeCleanup (s : RState) : RState :=
  { s with doneListener := false
           timeoutListener := false
           subCompleted := false
           subFailed := false
           countDown := none
           cleanupsRun := s.cleanupsRun + 1 }

/-- One unit of event-loop work touching this resolver: a queue event
delivered on the shared stream, the batch timer firing, or a pending
deferred `#close` callback running. -/
inductive SchedAction : Type
  | deliver (e : QueueEvent)
  | timerFire
  | closeCallback
  deriving DecidableEq, Repr

/-- Process one scheduler action.  Queue events reach a handler only while
it is subscribed; the timer fires only while armed (`clearTimeout` disarms
it); a close callback only runs if a `#close()` call is pending. -/
def stepAction (batch : TaskBatch) (s : RState) : SchedAction → RState
  | .deliver (.completed rv) =>
      if s.subCompleted then eventListenerCompleted batch s rv else s
  | .deliver (.failed j r) =>
      if s.subFailed then eventListenerFailed batch s j r else s
  | .deliver (.removed j) =>
      if s.subRemoved then eventListenerRemoved batch s j else s
  | .timerFire => if s.timerArmed then emitTimeout { s with timerArmed := false } else s
  | .closeCallback => if s.cleanupsRun < s.closeCalls then closeCleanup s else s

/-- Run a list of scheduler actions from a state. -/
def runActions (batch : TaskBatch) (s : RState) (acts : List SchedAction) : RState :=
  acts.foldl (stepAction batch) s

/-! ### The shared event stream's listener list (for the cleanup claim)

`getQueueEvents()` returns one shared emitter; every active resolver
registers its three handlers on it.  A listener is identified by
(event name, owning resolver, which bound handler). -/

/-- The three queue event names. -/
inductive QEvName : Type
  | completed
  | failed
  | removed
  deriving DecidableEq, Repr

/-- Which of a resolver's bound handler methods a listener entry refers to. -/
inductive HandlerKind : Type
  | completedHandler
  | failedHandler
  | removedHandler
  deriving DecidableEq, Repr

/-- A listener registration on the shared emitter. -/
structure ListenerEntry : Type where
  event : QEvName
  resolver : String
  handler : HandlerKind
  deriving DecidableEq, Repr

/-- The constructor's subscriptions (final iteration, lines 465–468):
`on('completed', #eventListenerCompleted)`, `on('failed', #eventListenerFailed)`,
`on('removed', #eventListenerRemoved)`. -/
def subscribeResolver (rid : String) (ls : List ListenerEntry) : List ListenerEntry :=
  ls ++ [⟨.completed, rid, .completedHandler⟩,
         ⟨.failed, rid, .failedHandler⟩,
         ⟨.removed, rid, .removedHandler⟩]

/-- `removeListener` drops at most one matching registration (each
(event, resolver, handler) triple is registered at most once here, so which
occurrence is immaterial). -/
def removeOneListener (ls : List ListenerEntry) (e : ListenerEntry) :
    List ListenerEntry :=
  ls.erase e

/-- The shared-emitter removals performed by `#close` (lines 612–616):
`removeListener('completed', #eventListenerCompleted)` and, for each of
`'failed'` and `'removed'`, `removeListener(_, #eventListenerFailed)`. -/
def closeRemovals (rid : String) (ls : List ListenerEntry) : List ListenerEntry :=
  removeOneListener
    (removeOneListener
      (removeOneListener ls ⟨.completed, rid, .completedHandler⟩)
      ⟨.failed, rid, .failedHandler⟩)
    ⟨.removed, rid, .failedHandler⟩

/-! ## Derived notions used by the theorem statements -/

/-- The record a queue event leaves in `#jobResults` when its batch owns it
(read off the three event listeners). -/
def recordOf (batch : TaskBatch) : QueueEvent → ReturnValue
  | .completed rv => rv
  | .failed jobId failedReason =>
      ⟨jobId, batch.requestId, some .fail,
        { issues := some (.list [failedReason]) }⟩
  | .removed jobId =>
      ⟨jobId, batch.requestId, none,
        { issues := some (.list
          ["Job removed from queue before processing for unknown reason"]) }⟩

/-- `e` is an event of the shared stream that reports on task `t` of
`batch`: a completed event carrying the batch's `requestId` and the task's
id as its payload identity, or a failed/removed event for the task's job
id. -/
def evFor (batch : TaskBatch) (t : Task) : QueueEvent → Prop
  | .completed rv => rv.requestId = batch.requestId ∧ rv.id = t.id
  | .failed jobId _ => jobId = t.id
  | .removed jobId => jobId = t.id

/-- An action that merely delivers a queue event (no timer, no cleanup
callback). -/
def isDelivery : SchedAction → Bool
  | .deliver _ => true
  | _ => false

/-- The services-map pair `#mapResultsToServiceNames` produces for task `t`
from a record store (with an irrelevant placeholder when the task has no
record — the source would throw there). -/
def svcPairD (jobResults : List (String × ReturnValue)) (t : Task) :
    String × SvcEntry :=
  match lookupA jobResults t.id with
  | some rv => (t.serviceName, ⟨t.id, rv.status, rv.resultData⟩)
  | none => (t.serviceName, ⟨t.id, none, {}⟩)

/-- The issue string the oneOf check emits for service `sname` when none of
group `g`'s fields is present. -/
def oneOfIssueStr (sname : String) (g : List (String × String)) : String :=
  sname ++ " service requires either " ++
    String.intercalate " or " (g.map Prod.fst) ++
    ", but neither are included with the request body"

/-- Service `sname`, as resolved through the registry, requires plain field
`f` with (coerced) shape `sh`. -/
def declaresPlain (registry : List RegisteredService) (sname f sh : String) : Prop :=
  ∃ rs, registry.find? (fun item => item.name = sname) = some rs ∧
    ∃ rd, rs.requiredData = some rd ∧ ∃ e, (f, e) ∈ rd ∧ entryShapeStr e = sh

/-- Service `sname`, as resolved through the registry, declares a `oneOf`
requirement. -/
def declaresOneOf (registry : List RegisteredService) (sname : String) : Prop :=
  ∃ rs, registry.find? (fun item => item.name = sname) = some rs ∧
    ∃ rd, rs.requiredData = some rd ∧ ∃ e, ("oneOf", e) ∈ rd

/-- Well-formedness of a requirements map as the validator builds it: keys
are distinct, the `"oneOf"` key (if present) holds a groups bucket, every
other key holds a nonempty shapes bucket, and all inner keys are distinct. -/
def WFreqs (reqs : List (String × ReqBucket)) : Prop :=
  (keysA reqs).Nodup ∧
  ∀ kv ∈ reqs,
    (kv.1 = "oneOf" → ∃ inner, kv.2 = .groups inner ∧ (keysA inner).Nodup) ∧
    (kv.1 ≠ "oneOf" →
      ∃ inner, kv.2 = .shapes inner ∧ (keysA inner).Nodup ∧ inner ≠ [])

/-- The shape keys recorded for plain field `f` in a requirements map. -/
def shapeKeysAt (reqs : List (String × ReqBucket)) (f : String) : List String :=
  match lookupA reqs f with
  | some (.shapes inner) => keysA inner
  | _ => []

/-- The services recorded in the `oneOf` bucket of a requirements map. -/
def oneOfNames (reqs : List (String × ReqBucket)) : List String :=
  match lookupA reqs "oneOf" with
  | some (.groups inner) => keysA inner
  | _ => []

/-! ## Concrete fixtures for counterexamples, failing inputs and witnesses -/

/-- A one-task batch. -/
def batchOne : TaskBatch :=
  { requestId := "r1",
    tasks := [{ id := "t1", requestId := "r1", serviceName := "ip-validation", data := [] }] }

/-- A two-task batch with distinct ids and service names. -/
def batchTwo : TaskBatch :=
  { requestId := "r1",
    tasks := [{ id := "t1", requestId := "r1", serviceName := "ip-validation", data := [] },
              { id := "t2", requestId := "r1", serviceName := "mock-worker", data := [] }] }

/-- A batch constructed with an empty tasks array. -/
def batchEmpty : TaskBatch := { requestId := "r1", tasks := [] }

/-- A successful completed-event payload for job `i` of request `"r1"`. -/
def rvDoneFor (i : String) : ReturnValue :=
  { id := i, requestId := "r1", status := some .done,
    resultData := { data := some [("valid", .bool true)] } }

/-- The mock-worker's service configuration as seen by `do`. -/
def mockServiceConfig : ServiceConfig :=
  { name := "mock-worker", requiredData := some [("mockResult", "string")] }

/-- A task for the mock worker directing it to echo status `reject`. -/
def mockRejectTask : Task :=
  { id := "tm", requestId := "rm", serviceName := "mock-worker",
    data := [("mockResult", .str "reject")] }

/-- A task for the mock worker directing it to throw (`mockResult: 'fail'`);
it passes structural validation. -/
def mockFailTask : Task :=
  { id := "tm", requestId := "rm", serviceName := "mock-worker",
    data := [("mockResult", .str "fail")] }

/-- A task whose required `mockResult` value is present but a number — the
wrong primitive shape for the declared `'string'`. -/
def wrongShapeTask : Task :=
  { id := "tm", requestId := "rm", serviceName := "mock-worker",
    data := [("mockResult", .num 42)] }

/-- A structurally invalid task: empty id. -/
def missingIdTask : Task :=
  { id := "", requestId := "rm", serviceName := "mock-worker",
    data := [("mockResult", .str "done")] }

/-- Two registered services requiring field `f` with different shapes. -/
def registryConflicting : List RegisteredService :=
  [{ name := "alpha", requiredData := some [("f", .shape "string")] },
   { name := "beta", requiredData := some [("f", .shape "boolean")] }]

/-- Two registered services each declaring only a `oneOf` group, requiring
no field with conflicting shapes. -/
def registryTwoOneOf : List RegisteredService :=
  [{ name := "a", requiredData := some [("oneOf", .group [[("x", "string")]])] },
   { name := "b", requiredData := some [("oneOf", .group [[("y", "string")]])] }]

/-- The `TaskResult` the mock worker produces for `mockResult: 'reject'`. -/
def mockRejectResult : TaskResult :=
  ⟨"tm", "rm", .reject, { data := some [("mockResult", .str "reject")] }⟩

/-- A `done` result used as the service-specific execution outcome. -/
def wrongShapeResult : TaskResult :=
  ⟨"tm", "rm", .done, { data := some [("ok", .bool true)] }⟩

/-- One owned event per task of `batchTwo`: a completed event for `t1` and a
failed event for `t2` (the spec's end-to-end example). -/
def psTwo : List (Task × QueueEvent) :=
  [({ id := "t1", requestId := "r1", serviceName := "ip-validation", data := [] },
      .completed (rvDoneFor "t1")),
   ({ id := "t2", requestId := "r1", serviceName := "mock-worker", data := [] },
      .failed "t2" "boom")]

/-! # Theorems -/

/-! ## Association-list lemmas -/

theorem lookupA_upsertA_self {α : Type} (l : List (String × α)) (k : String)
    (v : α) : lookupA (upsertA l k v) k = some v := by
  induction l with
  | nil => simp [upsertA, lookupA]
  | cons hd tl ih =>
      obtain ⟨k', v'⟩ := hd
      by_cases h : k' = k <;> simp [upsertA, lookupA, h, ih]

theorem lookupA_upsertA_ne {α : Type} (l : List (String × α)) (k k' : String)
    (v : α) (h : k ≠ k') : lookupA (upsertA l k v) k' = lookupA l k' := by
  induction l with
  | nil => simp [upsertA, lookupA, h]
  | cons hd tl ih =>
      obtain ⟨k₀, v₀⟩ := hd
      by_cases h₀ : k₀ = k
      · subst h₀; simp [upsertA, lookupA, h]
      · simp [upsertA, lookupA, h₀, ih]

theorem lookupA_append_left {α : Type} (l₁ l₂ : List (String × α)) (k : String)
    (h : (lookupA l₁ k).isSome) :
    lookupA (l₁ ++ l₂) k = lookupA l₁ k := by
  induction l₁ with
  | nil => simp [lookupA] at h
  | cons hd tl ih =>
      obtain ⟨k', v'⟩ := hd
      by_cases hk : k' = k <;> simp [lookupA, hk] at h ⊢
      exact ih h

theorem lookupA_append_right {α : Type} (l₁ l₂ : List (String × α)) (k : String)
    (h : lookupA l₁ k = none) :
    lookupA (l₁ ++ l₂) k = lookupA l₂ k := by
  induction l₁ with
  | nil => simp [lookupA]
  | cons hd tl ih =>
      obtain ⟨k', v'⟩ := hd
      by_cases hk : k' = k <;> simp [lookupA, hk] at h ⊢
      exact ih h

theorem upsertA_fresh {α : Type} (l : List (String × α)) (k : String) (v : α)
    (h : lookupA l k = none) : upsertA l k v = l ++ [(k, v)] := by
  induction l with
  | nil => simp [upsertA]
  | cons hd tl ih =>
      obtain ⟨k', v'⟩ := hd
      by_cases hk : k' = k <;> simp [lookupA, hk] at h ⊢
      · simp [upsertA, hk, ih h]

theorem lookupA_eq_none_iff {α : Type} (l : List (String × α)) (k : String) :
    lookupA l k = none ↔ k ∉ keysA l := by
  induction l with
  | nil => simp [lookupA, keysA]
  | cons hd tl ih =>
      obtain ⟨k', v'⟩ := hd
      have hkeys : keysA ((k', v') :: tl) = k' :: keysA tl := rfl
      by_cases hk : k' = k
      · simp [lookupA, keysA, hk]
      · rw [lookupA, if_neg hk, hkeys, List.mem_cons, ih]
        constructor
        · intro h hc
          rcases hc with h1 | h2
          · exact hk h1.symm
          · exact h h2
        · intro h h2
          exact h (Or.inr h2)

theorem lookupA_isSome_of_mem {α : Type} {l : List (String × α)} {k : String}
    {v : α} (h : (k, v) ∈ l) : (lookupA l k).isSome := by
  induction l with
  | nil => simp at h
  | cons hd tl ih =>
      obtain ⟨k', v'⟩ := hd
      by_cases hk : k' = k
      · simp [lookupA, hk]
      · simp [lookupA, hk]
        rcases List.mem_cons.mp h with h₁ | h₂
        · exact absurd (congrArg Prod.fst h₁).symm hk
        · exact ih h₂

theorem lookupA_of_mem_nodup {α : Type} {l : List (String × α)} {k : String}
    {v : α} (hmem : (k, v) ∈ l) (hnd : (keysA l).Nodup) :
    lookupA l k = some v := by
  induction l with
  | nil => simp at hmem
  | cons hd tl ih =>
      obtain ⟨k', v'⟩ := hd
      have hkeys : keysA ((k', v') :: tl) = k' :: keysA tl := rfl
      rw [hkeys] at hnd
      rcases List.mem_cons.mp hmem with h₁ | h₂
      · cases h₁
        simp [lookupA]
      · have hk : k' ≠ k := by
          intro hEq
          subst hEq
          exact (List.nodup_cons.mp hnd).1
            (by simpa [keysA] using List.mem_map_of_mem Prod.fst h₂)
        simp [lookupA, hk]
        exact ih h₂ (List.nodup_cons.mp hnd).2

/-! ## Resolver step lemmas -/

theorem resolveWith_promise_some {s : RState} {v : TaskBatchResult ⊕ TaskBatchError}
    (w : TaskBatchResult ⊕ TaskBatchError) (h : s.promise = some v) :
    (resolveWith s w).promise = some v := by
  simp [resolveWith, h]

theorem emitDone_promise_some (batch : TaskBatch) {s : RState}
    {v : TaskBatchResult ⊕ TaskBatchError} (h : s.promise = some v) :
    (emitDone batch s).promise = some v := by
  unfold emitDone
  by_cases hd : s.doneListener
  · simp only [hd, if_true]
    rcases hm : mapResultsToServiceNames batch s.jobResults with _ | services
    · simp [hm, h]
    · simp [hm, resolveWith, h]
  · simp [hd, h]

theorem emitTimeout_promise_some {s : RState}
    {v : TaskBatchResult ⊕ TaskBatchError} (h : s.promise = some v) :
    (emitTimeout s).promise = some v := by
  unfold emitTimeout
  by_cases ht : s.timeoutListener
  · simp [ht, resolveWith, h]
  · simp [ht, h]

theorem decrementPendingTasks_promise_some (batch : TaskBatch) {s : RState}
    {v : TaskBatchResult ⊕ TaskBatchError} (h : s.promise = some v) :
    (decrementPendingTasks batch s).promise = some v := by
  unfold decrementPendingTasks
  by_cases hc : (countDownNext s.countDown).1.1 = some 0 ∨
      (countDownNext s.countDown).1.2 = true
  · simp only [hc, if_true]
    exact emitDone_promise_some batch (by simpa using h)
  · simp [hc, h]

theorem stepAction_promise_some (batch : TaskBatch) {s : RState}
    (a : SchedAction) {v : TaskBatchResult ⊕ TaskBatchError}
    (h : s.promise = some v) : (stepAction batch s a).promise = some v := by
  cases a with
  | deliver e =>
      cases e with
      | completed rv =>
          by_cases hs : s.subCompleted
          · simp only [stepAction, hs, if_true, eventListenerCompleted]
            by_cases ho : ownsTask batch (.completed rv)
            · simp only [ho, if_true]
              exact decrementPendingTasks_promise_some batch (by simpa using h)
            · simp [ho, h]
          · simp [stepAction, hs, h]
      | failed j r =>
          by_cases hs : s.subFailed
          · simp only [stepAction, hs, if_true, eventListenerFailed]
            by_cases ho : ownsTask batch (.failed j r)
            · simp only [ho, if_true]
              exact decrementPendingTasks_promise_some batch (by simpa using h)
            · simp [ho, h]
          · simp [stepAction, hs, h]
      | removed j =>
          by_cases hs : s.subRemoved
          · simp only [stepAction, hs, if_true, eventListenerRemoved]
            by_cases ho : ownsTask batch (.removed j)
            · simp only [ho, if_true]
              by_cases hr : (lookupA s.jobResults j).isSome
              · simp [hr, h]
              · simp only [hr, if_false, Bool.false_eq_true]
                exact decrementPendingTasks_promise_some batch (by simpa using h)
            · simp [ho, h]
          · simp [stepAction, hs, h]
  | timerFire =>
      by_cases ht : s.timerArmed
      · simp only [stepAction, ht, if_true]
        exact emitTimeout_promise_some (by simpa using h)
      · simp [stepAction, ht, h]
  | closeCallback =>
      by_cases hc : s.cleanupsRun < s.closeCalls
      · simp [stepAction, hc, closeCleanup, h]
      · simp [stepAction, hc, h]

/-- Once the promise returned by `results()` has settled, no further queue
event, timer fire or cleanup callback changes its value. -/
theorem runActions_promise_stable (batch : TaskBatch) (acts : List SchedAction) :
    ∀ (s : RState) (v : TaskBatchResult ⊕ TaskBatchError),
      s.promise = some v → (runActions batch s acts).promise = some v := by
  induction acts with
  | nil => intro s v h; exact h
  | cons a rest ih =>
      intro s v h
      have hstep := stepAction_promise_some batch a h
      simpa [runActions, List.foldl_cons] using ih _ _ hstep

theorem runActions_append (batch : TaskBatch) (s : RState)
    (l₁ l₂ : List SchedAction) :
    runActions batch s (l₁ ++ l₂) = runActions batch (runActions batch s l₁) l₂ := by
  simp [runActions, List.foldl_append]

theorem stepAction_timer_disarmed (batch : TaskBatch) (s : RState)
    (h : s.timerArmed = false) : stepAction batch s .timerFire = s := by
  simp [stepAction, h]

theorem emitDone_jobResults (batch : TaskBatch) (s : RState) :
    (emitDone batch s).jobResults = s.jobResults := by
  unfold emitDone
  by_cases hd : s.doneListener
  · simp only [hd, if_true]
    rcases hm : mapResultsToServiceNames batch s.jobResults with _ | services
    · simp [hm]
    · simp [hm, resolveWith]
  · simp [hd]

theorem emitDone_decrements (batch : TaskBatch) (s : RState) :
    (emitDone batch s).decrements = s.decrements := by
  unfold emitDone
  by_cases hd : s.doneListener
  · simp only [hd, if_true]
    rcases hm : mapResultsToServiceNames batch s.jobResults with _ | services
    · simp [hm]
    · simp [hm, resolveWith]
  · simp [hd]

theorem decrementPendingTasks_jobResults (batch : TaskBatch) (s : RState) :
    (decrementPendingTasks batch s).jobResults = s.jobResults := by
  unfold decrementPendingTasks
  by_cases hc : (countDownNext s.countDown).1.1 = some 0 ∨
      (countDownNext s.countDown).1.2 = true
  · simp only [hc, if_true]
    rw [emitDone_jobResults]
  · simp [hc]

theorem decrementPendingTasks_decrements (batch : TaskBatch) (s : RState) :
    (decrementPendingTasks batch s).decrements = s.decrements + 1 := by
  unfold decrementPendingTasks
  by_cases hc : (countDownNext s.countDown).1.1 = some 0 ∨
      (countDownNext s.countDown).1.2 = true
  · simp only [hc, if_true]
    rw [emitDone_decrements]
  · simp [hc]

/-! ## Claim C1 — exactly-once settlement -/

/-- C1, counterexample.  The claim asserts that once either terminal
transition has fired, a subsequent queue event causes *no double cleanup*.
In the code, the timeout handler defers its cleanup through `setTimeout 0`,
leaving the done lifecycle listener and the queue listeners attached; a
completed event arriving in that window drives the countdown to zero and
runs the done handler, which calls `#close()` a second time.  For the
one-task batch, trace `[timer fires, completed event for t1]` ends with
`#close` invoked twice (a lone timer fire invokes it once), while the
resolved value stays the 504 error. -/
theorem c1_counterexample :
    (runActions batchOne (initState batchOne)
      [.timerFire, .deliver (.completed (rvDoneFor "t1"))]).promise
      = some (.inr gatewayTimeoutError) ∧
    (runActions batchOne (initState batchOne)
      [.timerFire, .deliver (.completed (rvDoneFor "t1"))]).closeCalls = 2 ∧
    (runActions batchOne (initState batchOne) [.timerFire]).closeCalls = 1 :=
  ⟨rfl, rfl, rfl⟩

/-- C1, amended.  The promise returned by `results()` settles exactly once:
whichever of the done and timedOut transitions fires first fixes the
resolved value, and no subsequent queue event, timer fire or cleanup
callback changes it; after the done transition the timer is cleared
synchronously, so a later timer fire is a complete no-op.  However, cleanup
is *not* exactly-once: after a timeout resolution, a queue event completing
the batch in the pre-cleanup window triggers the still-attached done
handler and schedules `#close` a second time (see the counterexample). -/
theorem c1_amended :
    (∀ (batch : TaskBatch) (s : RState) (acts : List SchedAction)
        (v : TaskBatchResult ⊕ TaskBatchError),
      s.promise = some v → (runActions batch s acts).promise = some v) ∧
    (∀ (batch : TaskBatch) (s : RState), s.timerArmed = false →
      stepAction batch s .timerFire = s) :=
  ⟨fun batch _ acts _ h => runActions_promise_stable batch acts _ _ h,
   fun batch s h => stepAction_timer_disarmed batch s h⟩

/-- C1, witness: the amended theorem applied at the timed-out one-task
resolver, with a late completed event, and at a disarmed timer. -/
theorem c1_witness :
    ({ initState batchOne with
        promise := some (.inr gatewayTimeoutError) } : RState).promise
      = some (.inr gatewayTimeoutError) ∧
    (runActions batchOne
      { initState batchOne with promise := some (.inr gatewayTimeoutError) }
      [.deliver (.completed (rvDoneFor "t1"))]).promise
      = some (.inr gatewayTimeoutError) ∧
    ({ initState batchOne with timerArmed := false } : RState).timerArmed = false ∧
    stepAction batchOne { initState batchOne with timerArmed := false } .timerFire
      = { initState batchOne with timerArmed := false } :=
  ⟨rfl, c1_amended.1 batchOne _ _ _ rfl, rfl, c1_amended.2 batchOne _ rfl⟩

/-! ## Claim C3 — at-most-once recording and decrementing -/

/-- C3, counterexample.  The claim says a completed event records and
decrements *only if* the task id has no recorded outcome yet, so that each
task id is counted at most once across all event types.  The completed
listener has no such guard: delivering the same completed event for `t1`
twice to the two-task batch decrements the countdown twice, exhausting the
generator (`countDown = none`) and firing the done transition with `t2`
unrecorded — where building the result map throws (`crashed`).  Also, the
record a removed event synthesizes for a never-recorded id carries *no*
`status` member at all, not `status: 'fail'`. -/
theorem c3_counterexample :
    (runActions batchTwo (initState batchTwo)
      [.deliver (.completed (rvDoneFor "t1")),
       .deliver (.completed (rvDoneFor "t1"))]).decrements = 2 ∧
    (runActions batchTwo (initState batchTwo)
      [.deliver (.completed (rvDoneFor "t1")),
       .deliver (.completed (rvDoneFor "t1"))]).countDown = none ∧
    (runActions batchTwo (initState batchTwo)
      [.deliver (.completed (rvDoneFor "t1")),
       .deliver (.completed (rvDoneFor "t1"))]).crashed = true ∧
    lookupA (runActions batchOne (initState batchOne)
      [.deliver (.removed "t1")]).jobResults "t1"
      = some ⟨"t1", "r1", none,
          { issues := some (.list
            ["Job removed from queue before processing for unknown reason"]) }⟩ :=
  ⟨rfl, rfl, rfl, rfl⟩

/-- C3, amended.  A removed event for an already-recorded task id is a
complete no-op, and a removed event for a never-recorded owned id records a
result noting the unexplained removal — with issues but *no* status member —
and decrements exactly once.  A completed event for an owned payload,
however, records (overwriting any existing record) and decrements
unconditionally on every delivery, so repeated completed events for the
same task id decrement repeatedly. -/
theorem c3_amended :
    (∀ (batch : TaskBatch) (s : RState) (jobId : String),
        (lookupA s.jobResults jobId).isSome →
        stepAction batch s (.deliver (.removed jobId)) = s) ∧
    (∀ (batch : TaskBatch) (s : RState) (jobId : String),
        s.subRemoved = true → ownsTask batch (.removed jobId) = true →
        lookupA s.jobResults jobId = none →
        (stepAction batch s (.deliver (.removed jobId))).decrements
            = s.decrements + 1 ∧
          lookupA (stepAction batch s (.deliver (.removed jobId))).jobResults jobId
            = some (recordOf batch (.removed jobId)) ∧
          (recordOf batch (.removed jobId)).status = none) ∧
    (∀ (batch : TaskBatch) (s : RState) (rv : ReturnValue),
        s.subCompleted = true → ownsTask batch (.completed rv) = true →
        (stepAction batch s (.deliver (.completed rv))).decrements
            = s.decrements + 1 ∧
          lookupA (stepAction batch s (.deliver (.completed rv))).jobResults rv.id
            = some rv) := by
  refine ⟨?_, ?_, ?_⟩
  · intro batch s jobId h
    by_cases hs : s.subRemoved
    · simp only [stepAction, hs, if_true, eventListenerRemoved]
      by_cases ho : ownsTask batch (.removed jobId)
      · simp [ho, h]
      · simp [ho]
    · simp [stepAction, hs]
  · intro batch s jobId hs ho hfresh
    have hnotsome : ¬ (lookupA s.jobResults jobId).isSome := by simp [hfresh]
    simp only [stepAction, hs, if_true, eventListenerRemoved, ho,
      hnotsome, if_false, Bool.false_eq_true]
    refine ⟨?_, ?_, rfl⟩
    · rw [decrementPendingTasks_decrements]
    · rw [decrementPendingTasks_jobResults]
      simpa [recordOf] using lookupA_upsertA_self s.jobResults jobId _
  · intro batch s rv hs ho
    simp only [stepAction, hs, if_true, eventListenerCompleted, ho]
    constructor
    · rw [decrementPendingTasks_decrements]
    · rw [decrementPendingTasks_jobResults]
      exact lookupA_upsertA_self s.jobResults rv.id rv

/-- C3, witness: the amended theorem applied at concrete inputs — a removed
event for the already-recorded `t1`, a removed event for the fresh `t1`,
and a completed event for `t1`. -/
theorem c3_witness :
    (lookupA ({ initState batchOne with
        jobResults := [("t1", rvDoneFor "t1")] } : RState).jobResults "t1").isSome ∧
    stepAction batchOne
        { initState batchOne with jobResults := [("t1", rvDoneFor "t1")] }
        (.deliver (.removed "t1"))
      = { initState batchOne with jobResults := [("t1", rvDoneFor "t1")] } ∧
    ((initState batchOne).subRemoved = true ∧
      ownsTask batchOne (.removed "t1") = true ∧
      lookupA (initState batchOne).jobResults "t1" = none ∧
      (stepAction batchOne (initState batchOne)
        (.deliver (.removed "t1"))).decrements = (initState batchOne).decrements + 1) ∧
    ((initState batchOne).subCompleted = true ∧
      ownsTask batchOne (.completed (rvDoneFor "t1")) = true ∧
      (stepAction batchOne (initState batchOne)
        (.deliver (.completed (rvDoneFor "t1")))).decrements
        = (initState batchOne).decrements + 1) :=
  ⟨by decide, c3_amended.1 batchOne _ "t1" (by decide),
   ⟨rfl, rfl, rfl,
    (c3_amended.2.1 batchOne (initState batchOne) "t1" rfl rfl rfl).1⟩,
   ⟨rfl, rfl,
    (c3_amended.2.2 batchOne (initState batchOne) (rvDoneFor "t1") rfl rfl).1⟩⟩

/-! ## Claim C4 — cleanup of the shared stream's listeners -/

/-- C4: the cleanup in `#close` does **not** remove all of this resolver's
listeners.  It removes the completed and failed handlers, but for the
`'removed'` event it calls `removeListener('removed', #eventListenerFailed)`
— a pairing that was never registered — so the resolver's
`#eventListenerRemoved` handler stays subscribed to the shared stream
forever (while other resolvers' listeners are correctly left in place).
With resolvers `A` and `B` subscribed, cleaning up `A` leaves exactly `A`'s
removed-handler plus all of `B`'s listeners; correspondingly, in the state
model `closeCleanup` drops the completed/failed subscriptions but leaves
`subRemoved` untouched. -/
theorem c4_listener_leak :
    closeRemovals "A" (subscribeResolver "B" (subscribeResolver "A" []))
      = [⟨.removed, "A", .removedHandler⟩,
         ⟨.completed, "B", .completedHandler⟩,
         ⟨.failed, "B", .failedHandler⟩,
         ⟨.removed, "B", .removedHandler⟩] ∧
    (⟨.removed, "A", .removedHandler⟩ : ListenerEntry)
      ∈ closeRemovals "A" (subscribeResolver "B" (subscribeResolver "A" [])) ∧
    (∀ s : RState,
      (closeCleanup s).subRemoved = s.subRemoved ∧
      (closeCleanup s).subCompleted = false ∧
      (closeCleanup s).subFailed = false) :=
  ⟨by decide, by decide, fun s => ⟨rfl, rfl, rfl⟩⟩

/-! ## Claim C9 — the status/issues invariant -/

/-- C9: the status invariant is violated by the system's own producers.
`JobWorkerMock.processTask`, fed `mockResult: 'reject'`, returns a
`TaskResult` with status `reject` carrying result *data* and no issues at
all — contradicting the invariant documented in the `TaskResult`
constructor (`reject` must carry issues and cannot carry data).  The same
violating value is exactly what `do` resolves with. -/
theorem c9_status_invariant_violated :
    mockProcessTask mockRejectTask = .ok mockRejectResult ∧
    mockRejectResult.status = .reject ∧
    mockRejectResult.resultData.issues = none ∧
    ¬ resultStatusOk mockRejectResult ∧
    doP10 mockServiceConfig mockRejectTask (mockBehavior mockRejectTask)
      = (true, .resolvedWith mockRejectResult) :=
  ⟨rfl, rfl, rfl, by decide, rfl⟩

/-! ## Claim C6 — execution errors must settle the promise with a `fail` result -/

/-- C6: `do` does not convert execution errors into a *resolved* `fail`
`TaskResult`.  For the validation-passing `mockResult: 'fail'` task, the
mock's `processTask` throws synchronously; `do` in `src/taskServices.ts`
catches it but then *rejects* its promise with the constructed `fail`
result, and adopts asynchronous rejections unchanged (rejecting with the
raw error); `do` in the later iteration rejects with the raw error on a
synchronous throw and, lacking any `.catch`, leaves the promise unsettled
forever on an asynchronous rejection. -/
theorem c6_rejects_instead_of_resolving :
    mockBehavior mockFailTask
      = .throwsSync "Error: mock-worker failing as directed" ∧
    doTS mockServiceConfig mockFailTask (mockBehavior mockFailTask)
      = (true, .rejectedWith (.failResult ⟨"tm", "rm", .fail,
          { issues := some (.str "Error: mock-worker failing as directed") }⟩)) ∧
    doP10 mockServiceConfig mockFailTask (mockBehavior mockFailTask)
      = (true, .rejectedWith (.rawError "Error: mock-worker failing as directed")) ∧
    doTS mockServiceConfig mockFailTask (.rejectsAsync "boom")
      = (true, .rejectedWith (.rawError "boom")) ∧
    doP10 mockServiceConfig mockFailTask (.rejectsAsync "boom")
      = (true, .pending) :=
  ⟨rfl, rfl, rfl, rfl, rfl⟩

/-! ## Claim C5 — validation short-circuit -/

/-- C5, counterexample.  (1) The claim includes "a required-data key … of
the wrong primitive shape" among the reject triggers, but `validateTask`
only tests `!data[key]` (truthiness): the task whose required `mockResult`
is the number `42` (declared shape `'string'`) validates cleanly and `do`
resolves with the execution result, not a reject.  (2) The claim says the
execution step is never invoked on a validation failure, but `do` lacks a
`return` after the rejecting `resolve`, so `processTask` is invoked anyway
(first component `true`). -/
theorem c5_counterexample :
    validateTask mockServiceConfig wrongShapeTask = [] ∧
    doP10 mockServiceConfig wrongShapeTask (.returns wrongShapeResult)
      = (true, .resolvedWith wrongShapeResult) ∧
    (doP10 mockServiceConfig missingIdTask (.returns wrongShapeResult)).1 = true ∧
    (doP10 mockServiceConfig missingIdTask (.returns wrongShapeResult)).2
      = .resolvedWith ⟨"", "rm", .reject,
          { issues := some (.list ["Task missing id"]) }⟩ :=
  ⟨rfl, rfl, rfl, rfl⟩

/-- C5, amended.  If structural validation fails — id missing, requestId
missing, serviceName different from the service's own, or a required-data
key whose value in `task.data` is absent or falsy (shapes are never
checked) — `do` resolves with a `reject` `TaskResult` carrying one issue
string per violation, regardless of what the execution step would do; the
execution step is nevertheless still invoked.  The second conjunct
characterizes validity: exactly the four truthiness-based checks, with no
shape comparison. -/
theorem c5_amended :
    (∀ (cfg : ServiceConfig) (task : Task) (beh : ExecBehavior),
        validateTask cfg task ≠ [] →
        doP10 cfg task beh
          = (true, .resolvedWith ⟨task.id, task.requestId, .reject,
              { issues := some (.list (validateTask cfg task)) }⟩)) ∧
    (∀ (cfg : ServiceConfig) (task : Task),
        validateTask cfg task = [] ↔
          (task.id ≠ "" ∧ task.requestId ≠ "" ∧ task.serviceName = cfg.name ∧
            ∀ kv ∈ cfg.requiredData.getD [],
              ((lookupA task.data kv.1).getD .undef).truthy = true)) := by
  constructor
  · intro cfg task beh h
    simp [doP10, h]
  · intro cfg task
    unfold validateTask
    rcases cfg.requiredData with _ | rd
    · simp only [Option.getD_none, List.not_mem_nil, false_implies, implies_true,
        and_true, List.append_nil, List.append_eq_nil]
      constructor
      · intro ⟨⟨h1, h2⟩, h3⟩
        refine ⟨?_, ?_, ?_⟩
        · intro hc; simp [hc] at h1
        · intro hc; simp [hc] at h2
        · by_contra hc; simp [hc] at h3
      · intro ⟨h1, h2, h3⟩
        simp [h1, h2, h3]
    · simp only [Option.getD_some, List.append_eq_nil, List.filterMap_eq_nil_iff]
      constructor
      · intro ⟨⟨⟨h1, h2⟩, h3⟩, h4⟩
        refine ⟨?_, ?_, ?_, ?_⟩
        · intro hc; simp [hc] at h1
        · intro hc; simp [hc] at h2
        · by_contra hc; simp [hc] at h3
        · intro kv hkv
          have := h4 kv hkv
          by_contra hc
          simp [hc] at this
      · intro ⟨h1, h2, h3, h4⟩
        refine ⟨⟨⟨?_, ?_⟩, ?_⟩, ?_⟩
        · simp [h1]
        · simp [h2]
        · simp [h3]
        · intro kv hkv
          simp [h4 kv hkv]

/-- C5, witness: the amended theorem applied at the missing-id task (first
part) and at the mock fail task (second part, valid direction). -/
theorem c5_amended_witness :
    validateTask mockServiceConfig missingIdTask ≠ [] ∧
    doP10 mockServiceConfig missingIdTask (.throwsSync "boom")
      = (true, .resolvedWith ⟨"", "rm", .reject,
          { issues := some (.list ["Task missing id"]) }⟩) ∧
    validateTask mockServiceConfig mockFailTask = [] :=
  ⟨by decide,
   c5_amended.1 mockServiceConfig missingIdTask (.throwsSync "boom") (by decide),
   (c5_amended.2 mockServiceConfig mockFailTask).mpr (by decide)⟩

/-! ## Claim C10 — the empty batch -/

/-- C10, counterexample.  The claim says an empty-tasks batch "can never
reach the done transition … regardless of what events the shared stream
delivers".  But the completed-event membership check is only a `requestId`
comparison, and the exhausted countdown generator answers
`{value: undefined, done: true}` to its very first `next()` — satisfying
the `tasksLeft.value === 0 || tasksLeft.done` trigger.  So one completed
event carrying the batch's own `requestId` drives the empty batch straight
to done: the promise resolves with an *empty* services map and the timer is
cleared. -/
theorem c10_counterexample :
    (runActions batchEmpty (initState batchEmpty)
      [.deliver (.completed (rvDoneFor "x"))]).promise
      = some (.inl ⟨[]⟩) ∧
    (runActions batchEmpty (initState batchEmpty)
      [.deliver (.completed (rvDoneFor "x"))]).timerArmed = false :=
  ⟨rfl, rfl⟩

/-- C10, amended.  For a batch constructed with an empty tasks array, no
failed or removed event ever passes the membership check, and a completed
event passes only if it carries the batch's own `requestId`; as long as
every delivered completed event carries a different `requestId`, the
resolver's state never changes, the done transition is unreachable, and
`results()` resolves only via the timeout path with the 504
`TaskBatchError`.  (If a completed event does carry the batch's
`requestId`, the exhausted countdown generator reports `done` on its first
`next()` and the resolver resolves done with an empty services map — see
the counterexample.) -/
theorem c10_amended (rid : String) (evs : List SchedAction)
    (hdeliv : ∀ a ∈ evs, isDelivery a = true)
    (hforeign : ∀ rv : ReturnValue,
      SchedAction.deliver (.completed rv) ∈ evs → rv.requestId ≠ rid) :
    runActions ⟨rid, []⟩ (initState ⟨rid, []⟩) evs = initState ⟨rid, []⟩ ∧
    (runActions ⟨rid, []⟩ (initState ⟨rid, []⟩) (evs ++ [.timerFire])).promise
      = some (.inr gatewayTimeoutError) := by
  have hmain : runActions ⟨rid, []⟩ (initState ⟨rid, []⟩) evs
      = initState ⟨rid, []⟩ := by
    induction evs with
    | nil => rfl
    | cons a rest ih =>
        have hstep : stepAction ⟨rid, []⟩ (initState ⟨rid, []⟩) a
            = initState ⟨rid, []⟩ := by
          cases a with
          | deliver e =>
              cases e with
              | completed rv =>
                  have hne : rv.requestId ≠ rid :=
                    hforeign rv (List.mem_cons_self _ _)
                  have howns : ownsTask ⟨rid, []⟩ (.completed rv) = false := by
                    simp [ownsTask]
                    exact fun hEq => hne hEq.symm
                  simp [stepAction, initState, eventListenerCompleted, howns]
              | failed j r =>
                  simp [stepAction, initState, eventListenerFailed, ownsTask]
              | removed j =>
                  simp [stepAction, initState, eventListenerRemoved, ownsTask]
          | timerFire =>
              exact absurd (hdeliv _ (List.mem_cons_self _ _)) (by simp [isDelivery])
          | closeCallback =>
              exact absurd (hdeliv _ (List.mem_cons_self _ _)) (by simp [isDelivery])
        have ih' := ih (fun a ha => hdeliv a (List.mem_cons_of_mem _ ha))
          (fun rv hrv => hforeign rv (List.mem_cons_of_mem _ hrv))
        calc runActions ⟨rid, []⟩ (initState ⟨rid, []⟩) (a :: rest)
            = runActions ⟨rid, []⟩ (stepAction ⟨rid, []⟩ (initState ⟨rid, []⟩) a) rest := by
              simp [runActions]
          _ = runActions ⟨rid, []⟩ (initState ⟨rid, []⟩) rest := by rw [hstep]
          _ = initState ⟨rid, []⟩ := ih'
  refine ⟨hmain, ?_⟩
  rw [runActions_append, hmain]
  rfl

/-- C10, witness: the amended theorem applied to a stream delivering a
foreign completed event and an unowned failed event, then the timer. -/
theorem c10_amended_witness :
    (∀ a ∈ ([.deliver (.completed { rvDoneFor "x" with requestId := "other" }),
             .deliver (.failed "z" "w")] : List SchedAction), isDelivery a = true) ∧
    (runActions ⟨"r1", []⟩ (initState ⟨"r1", []⟩)
      ([.deliver (.completed { rvDoneFor "x" with requestId := "other" }),
        .deliver (.failed "z" "w")] ++ [.timerFire])).promise
      = some (.inr gatewayTimeoutError) := by
  refine ⟨by decide, ?_⟩
  refine (c10_amended "r1"
    [.deliver (.completed { rvDoneFor "x" with requestId := "other" }),
     .deliver (.failed "z" "w")] (by decide) ?_).2
  intro rv hrv
  simp only [List.mem_cons, List.not_mem_nil, or_false] at hrv
  rcases hrv with h | h
  · cases h
    decide
  · cases h

/-! ## Claim C2 — full completion before timeout -/

theorem svcPairD_fst (jr : List (String × ReturnValue)) (t : Task) :
    (svcPairD jr t).1 = t.serviceName := by
  unfold svcPairD
  rcases lookupA jr t.id with _ | rv <;> rfl

theorem mapResults_eq_aux (jr : List (String × ReturnValue)) :
    ∀ (tasks : List Task) (acc : List (String × SvcEntry)),
    (∀ t ∈ tasks, (lookupA jr t.id).isSome) →
    (tasks.map Task.serviceName).Nodup →
    (∀ t ∈ tasks, lookupA acc t.serviceName = none) →
    List.foldlM
      (fun acc t => (lookupA jr t.id).map fun rv =>
        upsertA acc t.serviceName ⟨t.id, rv.status, rv.resultData⟩)
      acc tasks
      = some (acc ++ tasks.map (svcPairD jr)) := by
  intro tasks
  induction tasks with
  | nil =>
      intro acc _ _ _
      rw [List.map_nil, List.append_nil]
      rfl
  | cons t ts ih =>
      intro acc hall hnd hacc
      have hsome := hall t (List.mem_cons_self _ _)
      rcases hrv : lookupA jr t.id with _ | rv
      · rw [hrv] at hsome; simp at hsome
      · have hfreshT := hacc t (List.mem_cons_self _ _)
        have hup : upsertA acc t.serviceName
            (⟨t.id, rv.status, rv.resultData⟩ : SvcEntry)
            = acc ++ [(t.serviceName, ⟨t.id, rv.status, rv.resultData⟩)] :=
          upsertA_fresh _ _ _ hfreshT
        have hsvc_head : t.serviceName ∉ ts.map Task.serviceName :=
          (List.nodup_cons.mp hnd).1
        have hstep := ih (acc ++ [(t.serviceName, ⟨t.id, rv.status, rv.resultData⟩)])
          (fun t' ht' => hall t' (List.mem_cons_of_mem _ ht'))
          (List.nodup_cons.mp hnd).2
          (by
            intro t' ht'
            have hne : t.serviceName ≠ t'.serviceName := by
              intro hEq
              exact hsvc_head (hEq ▸ List.mem_map_of_mem Task.serviceName ht')
            rw [lookupA_append_right _ _ _ (hacc t' (List.mem_cons_of_mem _ ht'))]
            simp [lookupA, hne])
        have hpair : svcPairD jr t
            = (t.serviceName, (⟨t.id, rv.status, rv.resultData⟩ : SvcEntry)) := by
          simp [svcPairD, hrv]
        rw [List.foldlM_cons, hrv]
        simp [hup, hstep, hpair]

/-- When every task of the batch has a record and service names are
distinct, `#mapResultsToServiceNames` succeeds and produces exactly one
services entry per task, in batch order. -/
theorem mapResults_eq (batch : TaskBatch) (jr : List (String × ReturnValue))
    (hall : ∀ t ∈ batch.tasks, (lookupA jr t.id).isSome)
    (hsvc : (batch.tasks.map Task.serviceName).Nodup) :
    mapResultsToServiceNames batch jr = some (batch.tasks.map (svcPairD jr)) := by
  have := mapResults_eq_aux jr batch.tasks [] hall hsvc (by intro t _; rfl)
  simpa [mapResultsToServiceNames] using this

theorem lookup_map_svcPairD (tasks : List Task) (jr : List (String × ReturnValue))
    (hsvc : (tasks.map Task.serviceName).Nodup) {t : Task} (ht : t ∈ tasks) :
    lookupA (tasks.map (svcPairD jr)) t.serviceName = some (svcPairD jr t).2 := by
  have hkeys : keysA (tasks.map (svcPairD jr)) = tasks.map Task.serviceName := by
    unfold keysA
    rw [List.map_map]
    exact List.map_congr_left fun t' _ => svcPairD_fst jr t'
  have hmem : (t.serviceName, (svcPairD jr t).2) ∈ tasks.map (svcPairD jr) := by
    have h1 : svcPairD jr t ∈ tasks.map (svcPairD jr) :=
      List.mem_map_of_mem _ ht
    have h2 : svcPairD jr t = (t.serviceName, (svcPairD jr t).2) := by
      rw [← svcPairD_fst jr t]
    rwa [h2] at h1
  exact lookupA_of_mem_nodup hmem (hkeys ▸ hsvc)

/-- Delivering an owned, not-yet-recorded event appends exactly its record
and decrements. -/
theorem step_fresh_event (batch : TaskBatch) (s : RState) (p : Task × QueueEvent)
    (hmem : p.1 ∈ batch.tasks) (hev : evFor batch p.1 p.2)
    (hfresh : lookupA s.jobResults p.1.id = none)
    (hsubC : s.subCompleted = true) (hsubF : s.subFailed = true)
    (hsubR : s.subRemoved = true) :
    stepAction batch s (.deliver p.2)
      = decrementPendingTasks batch
          { s with jobResults := s.jobResults ++ [(p.1.id, recordOf batch p.2)] } := by
  rcases p with ⟨t, e⟩
  cases e with
  | completed rv =>
      obtain ⟨h1, h2⟩ := hev
      have howns : ownsTask batch (.completed rv) = true := by
        simp [ownsTask, h1]
      have hup : upsertA s.jobResults rv.id rv = s.jobResults ++ [(rv.id, rv)] :=
        upsertA_fresh _ _ _ (h2 ▸ hfresh)
      simp only [stepAction, hsubC, if_true, eventListenerCompleted, howns, hup]
      rw [h2]
      rfl
  | failed j r =>
      have hj : j = t.id := hev
      have howns : ownsTask batch (.failed j r) = true := by
        simp only [ownsTask, List.any_eq_true]
        exact ⟨t, hmem, by rw [hj]; exact beq_self_eq_true _⟩
      have hup := upsertA_fresh s.jobResults j
        (⟨j, batch.requestId, some .fail,
          { issues := some (.list [r]) }⟩ : ReturnValue) (hj ▸ hfresh)
      simp only [stepAction, hsubF, if_true, eventListenerFailed, howns, hup]
      rw [hj]
      rfl
  | removed j =>
      have hj : j = t.id := hev
      have howns : ownsTask batch (.removed j) = true := by
        simp only [ownsTask, List.any_eq_true]
        exact ⟨t, hmem, by rw [hj]; exact beq_self_eq_true _⟩
      have hnot : (lookupA s.jobResults j).isSome = false := by
        rw [hj, hfresh]; rfl
      have hup := upsertA_fresh s.jobResults j
        (⟨j, batch.requestId, none,
          { issues := some (.list
            ["Job removed from queue before processing for unknown reason"]) }⟩ :
          ReturnValue) (hj ▸ hfresh)
      simp only [stepAction, hsubR, if_true, eventListenerRemoved, howns, if_true,
        hnot, Bool.false_eq_true, if_false, hup]
      rw [hj]
      rfl

/-- A decrement that does not reach zero only advances the countdown. -/
theorem decrement_nonlast (batch : TaskBatch) (s : RState) (k : Nat)
    (hcd : s.countDown = some (k + 2)) :
    decrementPendingTasks batch s
      = { s with countDown := some (k + 1), decrements := s.decrements + 1 } := by
  unfold decrementPendingTasks
  rw [hcd]
  simp [countDownNext]

/-- The final decrement exhausts the generator and emits `'done'`. -/
theorem decrement_last (batch : TaskBatch) (s : RState)
    (hcd : s.countDown = some 1) :
    decrementPendingTasks batch s
      = emitDone batch { s with countDown := none, decrements := s.decrements + 1 } := by
  unfold decrementPendingTasks
  rw [hcd]
  simp [countDownNext]

/-- The done handler on a successfully built result map. -/
theorem emitDone_char (batch : TaskBatch) (s : RState)
    (hdl : s.doneListener = true)
    (services : List (String × SvcEntry))
    (hm : mapResultsToServiceNames batch s.jobResults = some services)
    (hpromise : s.promise = none) :
    emitDone batch s
      = { s with
            doneListener := false
            timerArmed := false
            promise := some (.inl ⟨services⟩)
            resolveCalls := s.resolveCalls + 1
            closeCalls := s.closeCalls + 1 } := by
  unfold emitDone
  simp [hdl, hm, resolveWith, hpromise]

theorem runActions_cons (batch : TaskBatch) (s : RState) (a : SchedAction)
    (acts : List SchedAction) :
    runActions batch s (a :: acts) = runActions batch (stepAction batch s a) acts := rfl

/-- Core induction: delivering one owned, fresh event per pending task (in
any order) walks the countdown to zero and fires the done transition
exactly once, with the final record store appended in delivery order. -/
theorem run_fresh (batch : TaskBatch)
    (hsvc : (batch.tasks.map Task.serviceName).Nodup) :
    ∀ (ps : List (Task × QueueEvent)) (s : RState),
    ps ≠ [] →
    (∀ p ∈ ps, p.1 ∈ batch.tasks) →
    (∀ p ∈ ps, evFor batch p.1 p.2) →
    (∀ p ∈ ps, lookupA s.jobResults p.1.id = none) →
    (ps.map fun p => p.1.id).Nodup →
    s.countDown = some ps.length →
    s.doneListener = true →
    s.subCompleted = true → s.subFailed = true → s.subRemoved = true →
    s.promise = none → s.resolveCalls = 0 → s.closeCalls = 0 → s.crashed = false →
    (∀ t ∈ batch.tasks, (lookupA s.jobResults t.id).isSome = true ∨
        t.id ∈ ps.map fun p => p.1.id) →
    (runActions batch s (ps.map fun p => .deliver p.2)).jobResults
        = s.jobResults ++ ps.map (fun p => (p.1.id, recordOf batch p.2)) ∧
    (runActions batch s (ps.map fun p => .deliver p.2)).promise
        = some (.inl ⟨batch.tasks.map (svcPairD
            (s.jobResults ++ ps.map (fun p => (p.1.id, recordOf batch p.2))))⟩) ∧
    (runActions batch s (ps.map fun p => .deliver p.2)).resolveCalls = 1 ∧
    (runActions batch s (ps.map fun p => .deliver p.2)).closeCalls = 1 ∧
    (runActions batch s (ps.map fun p => .deliver p.2)).crashed = false ∧
    (runActions batch s (ps.map fun p => .deliver p.2)).timerArmed = false ∧
    (runActions batch s (ps.map fun p => .deliver p.2)).countDown = none := by
  intro ps
  induction ps with
  | nil => intro s h; exact absurd rfl h
  | cons p rest ih =>
      intro s _ hmem hev hfresh hnd hcd hdl hsC hsF hsR hpr hrc hcc hcr hcover
      have hstep := step_fresh_event batch s p (hmem p (List.mem_cons_self _ _))
        (hev p (List.mem_cons_self _ _)) (hfresh p (List.mem_cons_self _ _))
        hsC hsF hsR
      have hidOf : ∀ t ∈ batch.tasks,
          (lookupA (s.jobResults ++ [(p.1.id, recordOf batch p.2)]) t.id).isSome = true ∨
            t.id ∈ rest.map fun q => q.1.id := by
        intro t ht
        rcases hcover t ht with hin | hid
        · left
          rw [lookupA_append_left _ _ _ (by rw [hin])]
          exact hin
        · rw [List.map_cons] at hid
          rcases List.mem_cons.mp hid with hEq | hmemRest
          · left
            rcases hjr : lookupA s.jobResults t.id with _ | rv
            · rw [lookupA_append_right _ _ _ hjr, hEq]
              simp [lookupA]
            · rw [lookupA_append_left _ _ _ (by rw [hjr]; rfl)]
              rw [hjr]
              rfl
          · right
            simpa using hmemRest
      cases rest with
      | nil =>
          have hcd1 : s.countDown = some 1 := by simpa using hcd
          have hrun : runActions batch s ([p].map fun q => .deliver q.2)
              = stepAction batch s (.deliver p.2) := rfl
          have hall : ∀ t ∈ batch.tasks,
              (lookupA (s.jobResults ++ [(p.1.id, recordOf batch p.2)]) t.id).isSome
                = true := by
            intro t ht
            rcases hidOf t ht with hsome | hmm
            · exact hsome
            · simp at hmm
          have hmap := mapResults_eq batch
            (s.jobResults ++ [(p.1.id, recordOf batch p.2)]) hall hsvc
          have hdec := decrement_last batch
            { s with jobResults := s.jobResults ++ [(p.1.id, recordOf batch p.2)] }
            (by simpa using hcd1)
          have hchar := emitDone_char batch
            { s with
                jobResults := s.jobResults ++ [(p.1.id, recordOf batch p.2)]
                countDown := none
                decrements := s.decrements + 1 }
            (by simpa using hdl)
            (batch.tasks.map (svcPairD
              (s.jobResults ++ [(p.1.id, recordOf batch p.2)])))
            (by simpa using hmap)
            (by simpa using hpr)
          rw [hrun, hstep, hdec]
          rw [show ({ s with jobResults := s.jobResults ++ [(p.1.id, recordOf batch p.2)] } : RState).decrements = s.decrements from rfl] at hchar
          rw [hchar]
          refine ⟨rfl, rfl, ?_, ?_, ?_, rfl, rfl⟩
          · simp [hrc]
          · simp [hcc]
          · simpa using hcr
      | cons q rest' =>
          have hcd2 : s.countDown = some (rest'.length + 2) := by
            simpa [Nat.add_comm, Nat.add_assoc, Nat.add_left_comm] using hcd
          have hdec := decrement_nonlast batch
            { s with jobResults := s.jobResults ++ [(p.1.id, recordOf batch p.2)] }
            rest'.length (by simpa using hcd2)
          have hrun : runActions batch s (((p :: q :: rest').map fun r => .deliver r.2))
              = runActions batch (stepAction batch s (.deliver p.2))
                  ((q :: rest').map fun r => .deliver r.2) := rfl
          have hfresh' : ∀ r ∈ q :: rest',
              lookupA (s.jobResults ++ [(p.1.id, recordOf batch p.2)]) r.1.id
                = none := by
            intro r hr
            have hne : p.1.id ≠ r.1.id := by
              intro hEq
              have hpnot : p.1.id ∉ (q :: rest').map fun x => x.1.id :=
                (List.nodup_cons.mp hnd).1
              exact hpnot (hEq ▸ List.mem_map_of_mem _ hr)
            rw [lookupA_append_right _ _ _ (hfresh r (List.mem_cons_of_mem _ hr))]
            simp [lookupA, hne]
          have ih' := ih
            { s with
                jobResults := s.jobResults ++ [(p.1.id, recordOf batch p.2)]
                countDown := some (rest'.length + 1)
                decrements := s.decrements + 1 }
            (List.cons_ne_nil _ _)
            (fun r hr => hmem r (List.mem_cons_of_mem _ hr))
            (fun r hr => hev r (List.mem_cons_of_mem _ hr))
            (by simpa using hfresh')
            (List.nodup_cons.mp hnd).2
            (by simp)
            (by simpa using hdl)
            (by simpa using hsC) (by simpa using hsF) (by simpa using hsR)
            (by simpa using hpr) (by simpa using hrc) (by simpa using hcc)
            (by simpa using hcr)
            (by simpa using hidOf)
          rw [hrun, hstep, hdec]
          obtain ⟨g1, g2, g3, g4, g5, g6, g7⟩ := ih'
          refine ⟨?_, ?_, g3, g4, g5, g6, g7⟩
          · rw [g1]
            simp
          · rw [g2]
            simp

/-- C2: for every batch of N (≥ 1) tasks with pairwise-distinct task ids
and pairwise-distinct service names, if owned completed/failed/removed
events covering all N task ids (one per task, in any order) are delivered
before the timeout fires, `results()` resolves exactly once
(`resolveCalls = 1`, and no exception) with a `TaskBatchResult` whose
services map has exactly N entries, keyed by each task's `serviceName` and
carrying precisely the status and payload recorded for that task's event.
(The batch is taken nonempty: claim C10 gives the separate account of the
empty batch, which can only resolve via timeout.) -/
theorem c2_confirmed (batch : TaskBatch) (ps : List (Task × QueueEvent))
    (hne : batch.tasks ≠ [])
    (hids : (batch.tasks.map Task.id).Nodup)
    (hsvc : (batch.tasks.map Task.serviceName).Nodup)
    (hperm : List.Perm (ps.map Prod.fst) batch.tasks)
    (hev : ∀ p ∈ ps, evFor batch p.1 p.2) :
    (runActions batch (initState batch) (ps.map fun p => .deliver p.2)).resolveCalls
        = 1 ∧
    (runActions batch (initState batch) (ps.map fun p => .deliver p.2)).crashed
        = false ∧
    ∃ res : TaskBatchResult,
      (runActions batch (initState batch) (ps.map fun p => .deliver p.2)).promise
          = some (.inl res) ∧
      res.services.length = batch.tasks.length ∧
      ∀ p ∈ ps, lookupA res.services p.1.serviceName
        = some ⟨p.1.id, (recordOf batch p.2).status, (recordOf batch p.2).resultData⟩ := by
  have hpsne : ps ≠ [] := by
    intro hps
    subst hps
    exact hne (hperm.symm.eq_nil ▸ rfl)
  have hmem : ∀ p ∈ ps, p.1 ∈ batch.tasks := by
    intro p hp
    exact hperm.subset (List.mem_map_of_mem Prod.fst hp)
  have hmapid : (ps.map Prod.fst).map Task.id = ps.map fun p => p.1.id := by
    rw [List.map_map]
    rfl
  have hndids : (ps.map fun p => p.1.id).Nodup := by
    rw [← hmapid]
    exact ((hperm.map Task.id).nodup_iff).mpr hids
  have hlen : ps.length = batch.tasks.length := by
    have := hperm.length_eq
    simpa using this
  have hcover : ∀ t ∈ batch.tasks,
      (lookupA (initState batch).jobResults t.id).isSome = true ∨
        t.id ∈ ps.map fun p => p.1.id := by
    intro t ht
    right
    have : t ∈ ps.map Prod.fst := hperm.mem_iff.mpr ht
    obtain ⟨p, hp, hfst⟩ := List.mem_map.mp this
    rw [← hmapid]
    exact List.mem_map_of_mem Task.id (hfst ▸ List.mem_map_of_mem Prod.fst hp)
  obtain ⟨g1, g2, g3, g4, g5, g6, g7⟩ := run_fresh batch hsvc ps (initState batch)
    hpsne hmem hev (fun p _ => rfl) hndids
    (by simp [initState, hlen]) rfl rfl rfl rfl rfl rfl rfl rfl hcover
  refine ⟨g3, g5, ⟨⟨batch.tasks.map (svcPairD
    (ps.map fun p => (p.1.id, recordOf batch p.2)))⟩, ?_, by simp, ?_⟩⟩
  · rw [g2]
    simp [initState]
  · intro p hp
    have hkeysjr : keysA (ps.map fun q => (q.1.id, recordOf batch q.2))
        = ps.map fun q => q.1.id := by
      unfold keysA
      rw [List.map_map]
      rfl
    have hlook : lookupA (ps.map fun q => (q.1.id, recordOf batch q.2)) p.1.id
        = some (recordOf batch p.2) :=
      lookupA_of_mem_nodup
        (List.mem_map_of_mem (fun q => (q.1.id, recordOf batch q.2)) hp)
        (hkeysjr ▸ hndids)
    have := lookup_map_svcPairD batch.tasks
      (ps.map fun q => (q.1.id, recordOf batch q.2)) hsvc (hmem p hp)
    rw [this]
    simp [svcPairD, hlook]

/-- C2, witness: the theorem applied to the spec's end-to-end example — the
two-task batch with a completed event for `t1` and a failed event for
`t2`. -/
theorem c2_witness :
    batchTwo.tasks ≠ [] ∧
    (batchTwo.tasks.map Task.id).Nodup ∧
    (batchTwo.tasks.map Task.serviceName).Nodup ∧
    List.Perm (psTwo.map Prod.fst) batchTwo.tasks ∧
    (∀ p ∈ psTwo, evFor batchTwo p.1 p.2) ∧
    ∃ res : TaskBatchResult,
      (runActions batchTwo (initState batchTwo)
        (psTwo.map fun p => .deliver p.2)).promise = some (.inl res) ∧
      res.services.length = batchTwo.tasks.length ∧
      ∀ p ∈ psTwo, lookupA res.services p.1.serviceName
        = some ⟨p.1.id, (recordOf batchTwo p.2).status,
            (recordOf batchTwo p.2).resultData⟩ := by
  have hev : ∀ p ∈ psTwo, evFor batchTwo p.1 p.2 := by
    intro p hp
    rcases List.mem_cons.mp hp with h | h
    · subst h
      exact ⟨rfl, rfl⟩
    · rcases List.mem_cons.mp h with h' | h'
      · subst h'
        rfl
      · cases h'
  exact ⟨by decide, by decide, by decide, List.Perm.refl _, hev,
    (c2_confirmed batchTwo psTwo (by decide) (by decide) (by decide)
      (List.Perm.refl _) hev).2.2⟩

/-! ## Claim C8 — oneOf satisfaction -/

theorem foldl_append_eq {α β : Type} (f : α → List β) :
    ∀ (l : List α) (init : List β),
      l.foldl (fun acc a => acc ++ f a) init = init ++ (l.map f).flatten := by
  intro l
  induction l with
  | nil => intro init; simp
  | cons a l ih =>
      intro init
      rw [List.foldl_cons, ih]
      simp

theorem filterMap_if_eq_filter_map {α β : Type} (c : α → Bool) (h : α → β) :
    ∀ l : List α,
      (l.filterMap fun a => if c a then none else some (h a))
        = (l.filter fun a => !c a).map h := by
  intro l
  induction l with
  | nil => rfl
  | cons a l ih =>
      by_cases hc : c a
      · simp [List.filterMap_cons, List.filter_cons, hc, ih]
      · simp [List.filterMap_cons, List.filter_cons, hc, ih]

/-- C8: the requirement validator's oneOf check.  For each service's stored
`oneOf` value, one issue is collected per alternative group none of whose
fields is in the payload's key list, formatted as the service name and the
group's fields — so a group is accepted (contributes no issue) exactly when
at least one of its alternative fields is present; and for a single service
the check collects no issue at all iff every one of its groups has a field
present.  In particular, the `rdap` service — requiring one of
`{ip, domain}` — run alone against a payload containing neither yields
exactly the one missing-requirement issue naming the service and the
alternatives, as the validator's full 400 response. -/
theorem c8_oneOf_check :
    (∀ (requestData : List (String × JsVal)) (pk : List String)
        (inner : List (String × ReqEntry)),
      keyIssues requestData pk "oneOf" (.groups inner)
        = (inner.map fun sv =>
            match sv.2 with
            | .group gs =>
                ((gs.filter fun g =>
                    !(g.map Prod.fst).any fun o => pk.contains o).map
                  (oneOfIssueStr sv.1))
            | .shape _ => []).flatten) ∧
    (∀ (requestData : List (String × JsVal)) (pk : List String)
        (sname : String) (gs : List (List (String × String))),
      keyIssues requestData pk "oneOf" (.groups [(sname, .group gs)]) = []
        ↔ ∀ g ∈ gs, (g.map Prod.fst).any (fun o => pk.contains o) = true) ∧
    validateRequestDataForServices [rdapRegistered] [("foo", .str "bar")] ["rdap"]
      = .ok (.response 400
          "rdap service requires either ip or domain, but neither are included with the request body") := by
  have hmain : ∀ (requestData : List (String × JsVal)) (pk : List String)
      (inner : List (String × ReqEntry)),
      keyIssues requestData pk "oneOf" (.groups inner)
        = (inner.map fun sv =>
            match sv.2 with
            | .group gs =>
                ((gs.filter fun g =>
                    !(g.map Prod.fst).any fun o => pk.contains o).map
                  (oneOfIssueStr sv.1))
            | .shape _ => []).flatten := by
    intro requestData pk inner
    have h0 : keyIssues requestData pk "oneOf" (.groups inner)
        = inner.foldl (fun acc sv => acc ++ (match sv.2 with
            | .group pairs =>
                pairs.filterMap fun pair =>
                  if (pair.map Prod.fst).any (fun o => pk.contains o) then none
                  else some (sv.1 ++ " service requires either " ++
                    String.intercalate " or " (pair.map Prod.fst) ++
                    ", but neither are included with the request body")
            | .shape _ => [])) [] := rfl
    rw [h0]
    rw [foldl_append_eq (fun sv : String × ReqEntry =>
      match sv.2 with
      | .group pairs =>
          pairs.filterMap fun pair =>
            if (pair.map Prod.fst).any (fun o => pk.contains o) then none
            else some (sv.1 ++ " service requires either " ++
              String.intercalate " or " (pair.map Prod.fst) ++
              ", but neither are included with the request body")
      | .shape _ => []) inner []]
    rw [List.nil_append]
    congr 1
    apply List.map_congr_left
    intro sv _
    rcases sv with ⟨sname, e⟩
    cases e with
    | shape s => rfl
    | group gs =>
        simp only
        rw [filterMap_if_eq_filter_map]
        rfl
  refine ⟨hmain, ?_, by rfl⟩
  intro requestData pk sname gs
  rw [hmain]
  have hsingle : (List.map (fun sv : String × ReqEntry =>
      match sv.2 with
      | .group gs' =>
          ((gs'.filter fun g => !(g.map Prod.fst).any fun o => pk.contains o).map
            (oneOfIssueStr sv.1))
      | .shape _ => []) [(sname, .group gs)]).flatten
      = (gs.filter fun g => !(g.map Prod.fst).any fun o => pk.contains o).map
          (oneOfIssueStr sname) := by
    simp
  rw [hsingle]
  constructor
  · intro hnil g hg
    have hfil : (gs.filter fun g => !(g.map Prod.fst).any fun o => pk.contains o)
        = [] := by
      rcases hf : gs.filter fun g => !(g.map Prod.fst).any fun o => pk.contains o
        with _ | ⟨x, xs⟩
      · exact hf
      · rw [hf] at hnil
        simp at hnil
    have hng := List.filter_eq_nil_iff.mp hfil g hg
    rcases hx : (g.map Prod.fst).any fun o => pk.contains o with _ | _
    · exact absurd (by rw [hx]; rfl) hng
    · rfl
  · intro hall
    have hfil : (gs.filter fun g => !(g.map Prod.fst).any fun o => pk.contains o)
        = [] := by
      rw [List.filter_eq_nil_iff]
      intro g hg
      rw [hall g hg]
      simp
    rw [hfil]
    rfl

/-! ## Claim C7 — requirement-conflict detection -/

theorem lookupA_mem {α : Type} {l : List (String × α)} {k : String} {v : α}
    (h : lookupA l k = some v) : (k, v) ∈ l := by
  induction l with
  | nil => simp [lookupA] at h
  | cons hd tl ih =>
      obtain ⟨k', v'⟩ := hd
      by_cases hk : k' = k
      · subst hk
        simp [lookupA] at h
        simp [h]
      · simp only [lookupA, if_neg hk] at h
        exact List.mem_cons_of_mem _ (ih h)

theorem mem_upsertA {α : Type} {l : List (String × α)} {k : String} {v : α}
    {x : String × α} (h : x ∈ upsertA l k v) : x ∈ l ∨ x = (k, v) := by
  induction l with
  | nil => simp [upsertA] at h; simp [h]
  | cons hd tl ih =>
      obtain ⟨k', v'⟩ := hd
      by_cases hk : k' = k
      · simp only [upsertA, if_pos hk] at h
        rcases List.mem_cons.mp h with h1 | h1
        · right; exact h1
        · left; exact List.mem_cons_of_mem _ h1
      · simp only [upsertA, if_neg hk] at h
        rcases List.mem_cons.mp h with h1 | h1
        · left; simp [h1]
        · rcases ih h1 with h2 | h2
          · left; exact List.mem_cons_of_mem _ h2
          · right; exact h2

theorem keysA_upsertA_of_some {α : Type} (l : List (String × α)) (k : String)
    (v : α) (h : (lookupA l k).isSome) :
    keysA (upsertA l k v) = keysA l := by
  induction l with
  | nil => simp [lookupA] at h
  | cons hd tl ih =>
      obtain ⟨k', v'⟩ := hd
      by_cases hk : k' = k
      · subst hk
        simp [upsertA, keysA]
      · simp only [lookupA, if_neg hk] at h
        have h1 : keysA ((k', v') :: upsertA tl k v)
            = k' :: keysA (upsertA tl k v) := rfl
        have h2 : keysA ((k', v') :: tl) = k' :: keysA tl := rfl
        simp only [upsertA, if_neg hk]
        rw [h1, h2, ih h]

theorem keysA_append {α : Type} (l₁ l₂ : List (String × α)) :
    keysA (l₁ ++ l₂) = keysA l₁ ++ keysA l₂ := by
  simp [keysA]

theorem mem_keysA_upsertA {α : Type} (l : List (String × α)) (k k' : String)
    (v : α) : k' ∈ keysA (upsertA l k v) ↔ k' ∈ keysA l ∨ k' = k := by
  induction l with
  | nil => simp [upsertA, keysA]
  | cons hd tl ih =>
      obtain ⟨k₀, v₀⟩ := hd
      by_cases hk : k₀ = k
      · have hup : upsertA ((k₀, v₀) :: tl) k v = (k, v) :: tl := by
          simp [upsertA, hk]
        have h1 : keysA ((k, v) :: tl) = k :: keysA tl := rfl
        have h2 : keysA ((k₀, v₀) :: tl) = k₀ :: keysA tl := rfl
        rw [hup, h1, h2, hk]
        constructor
        · intro h; exact Or.inl h
        · intro h
          rcases h with h | h
          · exact h
          · exact List.mem_cons.mpr (Or.inl h)
      · simp only [upsertA, if_neg hk]
        have h1 : keysA ((k₀, v₀) :: upsertA tl k v)
            = k₀ :: keysA (upsertA tl k v) := rfl
        have h2 : keysA ((k₀, v₀) :: tl) = k₀ :: keysA tl := rfl
        rw [h1, h2, List.mem_cons, List.mem_cons, ih]
        tauto

theorem keysA_upsertA_nodup {α : Type} (l : List (String × α)) (k : String)
    (v : α) (h : (keysA l).Nodup) : (keysA (upsertA l k v)).Nodup := by
  rcases hl : lookupA l k with _ | w
  · rw [upsertA_fresh l k v hl, keysA_append]
    have hk : k ∉ keysA l := (lookupA_eq_none_iff l k).mp hl
    have hsingle : keysA [(k, v)] = [k] := rfl
    rw [hsingle]
    refine List.nodup_append.mpr ⟨h, List.nodup_singleton k, ?_⟩
    intro a ha hb
    have hak : a = k := List.mem_singleton.mp hb
    subst hak
    exact hk ha
  · rw [keysA_upsertA_of_some l k v (by rw [hl]; rfl)]
    exact h

theorem upsertA_ne_nil {α : Type} (l : List (String × α)) (k : String) (v : α) :
    upsertA l k v ≠ [] := by
  cases l with
  | nil => simp [upsertA]
  | cons hd tl =>
      obtain ⟨k', v'⟩ := hd
      by_cases hk : k' = k <;> simp [upsertA, hk]

theorem addReq_WF (name : String) (reqs : List (String × ReqBucket))
    (kv : String × ReqEntry) (hwf : WFreqs reqs) : WFreqs (addReq name reqs kv) := by
  obtain ⟨hnd, hmem⟩ := hwf
  by_cases hone : kv.1 = "oneOf"
  · rcases hlk : lookupA reqs "oneOf" with _ | b
    · -- fresh "oneOf" key, appended
      simp only [addReq, if_pos hone, hlk]
      constructor
      · rw [keysA_append]
        refine List.nodup_append.mpr ⟨hnd, List.nodup_singleton _, ?_⟩
        intro a ha hb
        have hak : a = "oneOf" := List.mem_singleton.mp hb
        subst hak
        exact (lookupA_eq_none_iff reqs "oneOf").mp hlk ha
      · intro x hx
        rcases List.mem_append.mp hx with hx | hx
        · exact hmem x hx
        · have hx' : x = ("oneOf", ReqBucket.groups [(name, kv.2)]) :=
            List.mem_singleton.mp hx
          subst hx'
          exact ⟨fun _ => ⟨[(name, kv.2)], rfl, List.nodup_singleton _⟩,
            fun hne => absurd rfl hne⟩
    · cases b with
      | groups inner =>
          simp only [addReq, if_pos hone, hlk]
          constructor
          · rw [keysA_upsertA_of_some _ _ _ (by rw [hlk]; rfl)]
            exact hnd
          · intro x hx
            rcases mem_upsertA hx with hx' | hx'
            · exact hmem x hx'
            · subst hx'
              refine ⟨fun _ => ⟨upsertA inner name kv.2, rfl, ?_⟩,
                fun hne => absurd rfl hne⟩
              have hin := hmem _ (lookupA_mem hlk)
              obtain ⟨inner', hEq, hnd'⟩ := hin.1 rfl
              cases hEq
              exact keysA_upsertA_nodup _ _ _ hnd'
      | shapes inner =>
          -- impossible: the "oneOf" key always holds a groups bucket
          exfalso
          have hin := hmem _ (lookupA_mem hlk)
          obtain ⟨inner', hEq, _⟩ := hin.1 rfl
          cases hEq
  · rcases hlk : lookupA reqs kv.1 with _ | b
    · simp only [addReq, if_neg hone, hlk]
      constructor
      · rw [keysA_append]
        refine List.nodup_append.mpr ⟨hnd, List.nodup_singleton _, ?_⟩
        intro a ha hb
        have hak : a = kv.1 := List.mem_singleton.mp hb
        subst hak
        exact (lookupA_eq_none_iff reqs kv.1).mp hlk ha
      · intro x hx
        rcases List.mem_append.mp hx with hx | hx
        · exact hmem x hx
        · have hx' : x = (kv.1, ReqBucket.shapes [(entryShapeStr kv.2, [name])]) :=
            List.mem_singleton.mp hx
          subst hx'
          exact ⟨fun hEq => absurd hEq hone,
            fun _ => ⟨[(entryShapeStr kv.2, [name])], rfl,
              List.nodup_singleton _, by simp⟩⟩
    · cases b with
      | shapes inner =>
          simp only [addReq, if_neg hone, hlk]
          constructor
          · rw [keysA_upsertA_of_some _ _ _ (by rw [hlk]; rfl)]
            exact hnd
          · intro x hx
            rcases mem_upsertA hx with hx' | hx'
            · exact hmem x hx'
            · subst hx'
              have hin := hmem _ (lookupA_mem hlk)
              obtain ⟨inner', hEq, hnd', hne'⟩ := hin.2 hone
              cases hEq
              refine ⟨fun hEq => absurd hEq hone, fun _ => ?_⟩
              rcases hsh : lookupA inner (entryShapeStr kv.2) with _ | names
              · refine ⟨inner ++ [(entryShapeStr kv.2, [name])], rfl, ?_, by simp⟩
                rw [← upsertA_fresh _ _ _ hsh]
                exact keysA_upsertA_nodup _ _ _ hnd'
              · exact ⟨upsertA inner (entryShapeStr kv.2) (names ++ [name]),
                  rfl, keysA_upsertA_nodup _ _ _ hnd', upsertA_ne_nil _ _ _⟩
      | groups inner =>
          -- impossible: a non-"oneOf" key always holds a shapes bucket
          exfalso
          have hin := hmem _ (lookupA_mem hlk)
          obtain ⟨inner', hEq, _⟩ := hin.2 hone
          cases hEq

theorem addReq_shapeKeys (name : String) (reqs : List (String × ReqBucket))
    (kv : String × ReqEntry) (hwf : WFreqs reqs) (f : String) (hf : f ≠ "oneOf") :
    ∀ sh, sh ∈ shapeKeysAt (addReq name reqs kv) f ↔
      (sh ∈ shapeKeysAt reqs f ∨ (kv.1 = f ∧ entryShapeStr kv.2 = sh)) := by
  intro sh
  obtain ⟨hnd, hmem⟩ := hwf
  by_cases hone : kv.1 = "oneOf"
  · have hkvf : kv.1 ≠ f := by rw [hone]; exact fun hEq => hf hEq.symm
    rcases hlk : lookupA reqs "oneOf" with _ | b
    · simp only [addReq, if_pos hone, hlk]
      unfold shapeKeysAt
      rcases hlf : lookupA reqs f with _ | bf
      · rw [lookupA_append_right _ _ _ hlf]
        have hone' : ("oneOf" : String) ≠ f := fun hEq => hf hEq.symm
        simp [lookupA, hone', hkvf, hone]
      · rw [lookupA_append_left _ _ _ (by rw [hlf]; rfl), hlf]
        simp [hkvf]
    · cases b with
      | groups inner =>
          simp only [addReq, if_pos hone, hlk]
          unfold shapeKeysAt
          rw [lookupA_upsertA_ne _ _ _ _ (fun hEq => hf hEq.symm)]
          simp [hkvf]
      | shapes inner =>
          exfalso
          have hin := hmem _ (lookupA_mem hlk)
          obtain ⟨inner', hEq, _⟩ := hin.1 rfl
          cases hEq
  · by_cases hkf : kv.1 = f
    · subst hkf
      rcases hlk : lookupA reqs kv.1 with _ | b
      · simp only [addReq, if_neg hone, hlk]
        unfold shapeKeysAt
        rw [lookupA_append_right _ _ _ hlk]
        rw [hlk]
        have hkk : keysA [(entryShapeStr kv.2, [name])] = [entryShapeStr kv.2] := rfl
        simp only [lookupA, if_pos rfl, hkk]
        constructor
        · intro h
          exact Or.inr ⟨by trivial, (List.mem_singleton.mp h).symm⟩
        · intro h
          rcases h with h | ⟨_, h⟩
          · simp at h
          · exact List.mem_singleton.mpr h.symm
      · cases b with
        | shapes inner =>
            simp only [addReq, if_neg hone, hlk]
            unfold shapeKeysAt
            rw [lookupA_upsertA_self, hlk]
            rcases hsh : lookupA inner (entryShapeStr kv.2) with _ | names
            · rw [← upsertA_fresh _ _ _ hsh, mem_keysA_upsertA]
              constructor
              · intro h
                rcases h with h | h
                · exact Or.inl h
                · exact Or.inr ⟨by trivial, h.symm⟩
              · intro h
                rcases h with h | ⟨_, h⟩
                · exact Or.inl h
                · exact Or.inr h.symm
            · rw [mem_keysA_upsertA]
              constructor
              · intro h
                rcases h with h | h
                · exact Or.inl h
                · exact Or.inr ⟨by trivial, h.symm⟩
              · intro h
                rcases h with h | ⟨_, h⟩
                · exact Or.inl h
                · exact Or.inr h.symm
        | groups inner =>
            exfalso
            have hin := hmem _ (lookupA_mem hlk)
            obtain ⟨inner', hEq, _⟩ := hin.2 hone
            cases hEq
    · rcases hlk : lookupA reqs kv.1 with _ | b
      · simp only [addReq, if_neg hone, hlk]
        unfold shapeKeysAt
        rcases hlf : lookupA reqs f with _ | bf
        · rw [lookupA_append_right _ _ _ hlf]
          simp [lookupA, hkf, hlf]
        · rw [lookupA_append_left _ _ _ (by rw [hlf]; rfl), hlf]
          simp [hkf]
      · cases b with
        | shapes inner =>
            simp only [addReq, if_neg hone, hlk]
            unfold shapeKeysAt
            rw [lookupA_upsertA_ne _ _ _ _ hkf]
            simp [hkf]
        | groups inner =>
            exfalso
            have hin := hmem _ (lookupA_mem hlk)
            obtain ⟨inner', hEq, _⟩ := hin.2 hone
            cases hEq

theorem addReq_oneOfNames (name : String) (reqs : List (String × ReqBucket))
    (kv : String × ReqEntry) (hwf : WFreqs reqs) :
    ∀ n, n ∈ oneOfNames (addReq name reqs kv) ↔
      (n ∈ oneOfNames reqs ∨ (kv.1 = "oneOf" ∧ n = name)) := by
  intro n
  obtain ⟨hnd, hmem⟩ := hwf
  by_cases hone : kv.1 = "oneOf"
  · rcases hlk : lookupA reqs "oneOf" with _ | b
    · simp only [addReq, if_pos hone, hlk]
      unfold oneOfNames
      rw [lookupA_append_right _ _ _ hlk, hlk]
      simp [lookupA, keysA, hone]
    · cases b with
      | groups inner =>
          simp only [addReq, if_pos hone, hlk]
          unfold oneOfNames
          rw [lookupA_upsertA_self, hlk, mem_keysA_upsertA]
          simp [hone]
      | shapes inner =>
          exfalso
          have hin := hmem _ (lookupA_mem hlk)
          obtain ⟨inner', hEq, _⟩ := hin.1 rfl
          cases hEq
  · rcases hlk : lookupA reqs kv.1 with _ | b
    · simp only [addReq, if_neg hone, hlk]
      unfold oneOfNames
      rcases hlf : lookupA reqs "oneOf" with _ | bf
      · rw [lookupA_append_right _ _ _ hlf]
        simp [lookupA, hone, hlf]
      · rw [lookupA_append_left _ _ _ (by rw [hlf]; rfl), hlf]
        simp [hone]
    · cases b with
      | shapes inner =>
          simp only [addReq, if_neg hone, hlk]
          unfold oneOfNames
          rw [lookupA_upsertA_ne _ _ _ _ hone]
          simp [hone]
      | groups inner =>
          exfalso
          have hin := hmem _ (lookupA_mem hlk)
          obtain ⟨inner', hEq, _⟩ := hin.2 hone
          cases hEq

theorem foldl_addReq_WF (name : String) :
    ∀ (rd : List (String × ReqEntry)) (reqs : List (String × ReqBucket)),
      WFreqs reqs → WFreqs (rd.foldl (addReq name) reqs) := by
  intro rd
  induction rd with
  | nil => intro reqs hwf; exact hwf
  | cons kv rd' ih =>
      intro reqs hwf
      rw [List.foldl_cons]
      exact ih _ (addReq_WF name reqs kv hwf)

theorem foldl_addReq_shapeKeys (name : String) :
    ∀ (rd : List (String × ReqEntry)) (reqs : List (String × ReqBucket)),
      WFreqs reqs → ∀ (f : String), f ≠ "oneOf" → ∀ sh,
      (sh ∈ shapeKeysAt (rd.foldl (addReq name) reqs) f ↔
        sh ∈ shapeKeysAt reqs f ∨ ∃ e, (f, e) ∈ rd ∧ entryShapeStr e = sh) := by
  intro rd
  induction rd with
  | nil => intro reqs _ f _ sh; simp
  | cons kv rd' ih =>
      intro reqs hwf f hf sh
      rw [List.foldl_cons]
      rw [ih _ (addReq_WF name reqs kv hwf) f hf sh]
      rw [addReq_shapeKeys name reqs kv hwf f hf sh]
      constructor
      · intro h
        rcases h with (h | ⟨h1, h2⟩) | ⟨e, he, hsh⟩
        · exact Or.inl h
        · exact Or.inr ⟨kv.2, by
            refine ⟨?_, h2⟩
            rw [List.mem_cons]
            left
            exact Prod.ext h1.symm rfl⟩
        · exact Or.inr ⟨e, List.mem_cons_of_mem _ he, hsh⟩
      · intro h
        rcases h with h | ⟨e, he, hsh⟩
        · exact Or.inl (Or.inl h)
        · rcases List.mem_cons.mp he with hEq | hmm
          · left
            right
            have h1 : f = kv.1 := congrArg Prod.fst hEq
            have h2 : e = kv.2 := congrArg Prod.snd hEq
            exact ⟨h1.symm, h2 ▸ hsh⟩
          · exact Or.inr ⟨e, hmm, hsh⟩

theorem foldl_addReq_oneOfNames (name : String) :
    ∀ (rd : List (String × ReqEntry)) (reqs : List (String × ReqBucket)),
      WFreqs reqs → ∀ n,
      (n ∈ oneOfNames (rd.foldl (addReq name) reqs) ↔
        n ∈ oneOfNames reqs ∨ (n = name ∧ ∃ e, ("oneOf", e) ∈ rd)) := by
  intro rd
  induction rd with
  | nil => intro reqs _ n; simp
  | cons kv rd' ih =>
      intro reqs hwf n
      rw [List.foldl_cons]
      rw [ih _ (addReq_WF name reqs kv hwf) n]
      rw [addReq_oneOfNames name reqs kv hwf n]
      constructor
      · intro h
        rcases h with (h | ⟨h1, h2⟩) | ⟨h1, e, he⟩
        · exact Or.inl h
        · exact Or.inr ⟨h2, kv.2, by
            rw [List.mem_cons]
            left
            exact Prod.ext h1.symm rfl⟩
        · exact Or.inr ⟨h1, e, List.mem_cons_of_mem _ he⟩
      · intro h
        rcases h with h | ⟨h1, e, he⟩
        · exact Or.inl (Or.inl h)
        · rcases List.mem_cons.mp he with hEq | hmm
          · left
            right
            have hk : ("oneOf" : String) = kv.1 := congrArg Prod.fst hEq
            exact ⟨hk.symm, h1⟩
          · exact Or.inr ⟨h1, e, hmm⟩

/-- Characterization of the requirements map the validator builds: the
shape keys recorded for a plain field are exactly the shapes the requested
services declare for it, and the `oneOf` bucket's keys are exactly the
requested services declaring a `oneOf` requirement. -/
theorem build_char (registry : List RegisteredService) :
    ∀ (sts : List String) (acc : List (String × ReqBucket)),
      WFreqs acc →
      (∀ s ∈ sts, ∃ rs, registry.find? (fun item => item.name = s) = some rs) →
      ∃ reqs, buildRequirements registry sts acc = .ok reqs ∧ WFreqs reqs ∧
        (∀ f, f ≠ "oneOf" → ∀ sh,
          (sh ∈ shapeKeysAt reqs f ↔
            sh ∈ shapeKeysAt acc f ∨ ∃ s ∈ sts, declaresPlain registry s f sh)) ∧
        (∀ n, n ∈ oneOfNames reqs ↔
          n ∈ oneOfNames acc ∨ (n ∈ sts ∧ declaresOneOf registry n)) := by
  intro sts
  induction sts with
  | nil =>
      intro acc hwf _
      exact ⟨acc, rfl, hwf, fun f _ sh => by simp, fun n => by simp⟩
  | cons s rest ih =>
      intro acc hwf hfound
      obtain ⟨rs, hrs⟩ := hfound s (List.mem_cons_self _ _)
      have hname : rs.name = s := by
        have := List.find?_some hrs
        simpa using this
      rcases hrd : rs.requiredData with _ | rd
      · -- no requiredData: `continue`
        obtain ⟨reqs, hb, hwf', hshape, honeof⟩ := ih acc hwf
          (fun s' hs' => hfound s' (List.mem_cons_of_mem _ hs'))
        refine ⟨reqs, ?_, hwf', ?_, ?_⟩
        · have hstep : buildRequirements registry (s :: rest) acc
              = buildRequirements registry rest acc := by
            simp [buildRequirements, hrs, hrd]
          rw [hstep]
          exact hb
        · intro f hf sh
          rw [hshape f hf sh]
          constructor
          · intro h
            rcases h with h | ⟨s', hs', hdecl⟩
            · exact Or.inl h
            · exact Or.inr ⟨s', List.mem_cons_of_mem _ hs', hdecl⟩
          · intro h
            rcases h with h | ⟨s', hs', hdecl⟩
            · exact Or.inl h
            · rcases List.mem_cons.mp hs' with hEq | hmm
              · subst hEq
                obtain ⟨rs', hrs', rd', hrd', _⟩ := hdecl
                rw [hrs] at hrs'
                cases hrs'
                rw [hrd] at hrd'
                cases hrd'
              · exact Or.inr ⟨s', hmm, hdecl⟩
        · intro n
          rw [honeof n]
          constructor
          · intro h
            rcases h with h | ⟨hn, hdecl⟩
            · exact Or.inl h
            · exact Or.inr ⟨List.mem_cons_of_mem _ hn, hdecl⟩
          · intro h
            rcases h with h | ⟨hn, hdecl⟩
            · exact Or.inl h
            · rcases List.mem_cons.mp hn with hEq | hmm
              · subst hEq
                obtain ⟨rs', hrs', rd', hrd', _⟩ := hdecl
                rw [hrs] at hrs'
                cases hrs'
                rw [hrd] at hrd'
                cases hrd'
              · exact Or.inr ⟨hmm, hdecl⟩
      · -- fold this service's requiredData into the accumulator, then recurse
        have hwf' : WFreqs (rd.foldl (addReq rs.name) acc) :=
          foldl_addReq_WF rs.name rd acc hwf
        obtain ⟨reqs, hb, hwf'', hshape, honeof⟩ := ih (rd.foldl (addReq rs.name) acc)
          hwf' (fun s' hs' => hfound s' (List.mem_cons_of_mem _ hs'))
        have hdeclP : ∀ f sh, f ≠ "oneOf" →
            ((∃ e, (f, e) ∈ rd ∧ entryShapeStr e = sh) ↔
              declaresPlain registry s f sh) := by
          intro f sh hf
          constructor
          · intro ⟨e, he, hsh⟩
            exact ⟨rs, hrs, rd, hrd, e, he, hsh⟩
          · intro ⟨rs', hrs', rd', hrd', e, he, hsh⟩
            rw [hrs] at hrs'
            cases hrs'
            rw [hrd] at hrd'
            cases hrd'
            exact ⟨e, he, hsh⟩
        have hdeclO : (∃ e, (("oneOf" : String), e) ∈ rd) ↔
            declaresOneOf registry s := by
          constructor
          · intro ⟨e, he⟩
            exact ⟨rs, hrs, rd, hrd, e, he⟩
          · intro ⟨rs', hrs', rd', hrd', e, he⟩
            rw [hrs] at hrs'
            cases hrs'
            rw [hrd] at hrd'
            cases hrd'
            exact ⟨e, he⟩
        refine ⟨reqs, ?_, hwf'', ?_, ?_⟩
        · have hstep : buildRequirements registry (s :: rest) acc
              = buildRequirements registry rest (rd.foldl (addReq rs.name) acc) := by
            simp [buildRequirements, hrs, hrd]
          rw [hstep]
          exact hb
        · intro f hf sh
          rw [hshape f hf sh,
            foldl_addReq_shapeKeys rs.name rd acc hwf f hf sh]
          constructor
          · intro h
            rcases h with (h | hdecl) | ⟨s', hs', hdecl⟩
            · exact Or.inl h
            · exact Or.inr ⟨s, List.mem_cons_self _ _, (hdeclP f sh hf).mp hdecl⟩
            · exact Or.inr ⟨s', List.mem_cons_of_mem _ hs', hdecl⟩
          · intro h
            rcases h with h | ⟨s', hs', hdecl⟩
            · exact Or.inl (Or.inl h)
            · rcases List.mem_cons.mp hs' with hEq | hmm
              · subst hEq
                exact Or.inl (Or.inr ((hdeclP f sh hf).mpr hdecl))
              · exact Or.inr ⟨s', hmm, hdecl⟩
        · intro n
          rw [honeof n, foldl_addReq_oneOfNames rs.name rd acc hwf n]
          constructor
          · intro h
            rcases h with (h | ⟨hn, hdecl⟩) | ⟨hn, hdecl⟩
            · exact Or.inl h
            · exact Or.inr ⟨by rw [hn, hname]; exact List.mem_cons_self _ _,
                by rw [hn, hname]; exact hdeclO.mp hdecl⟩
            · exact Or.inr ⟨List.mem_cons_of_mem _ hn, hdecl⟩
          · intro h
            rcases h with h | ⟨hn, hdecl⟩
            · exact Or.inl (Or.inl h)
            · rcases List.mem_cons.mp hn with hEq | hmm
              · subst hEq
                exact Or.inl (Or.inr ⟨hname.symm, hdeclO.mpr hdecl⟩)
              · exact Or.inr ⟨hmm, hdecl⟩

theorem one_lt_length_of_two_mem {α : Type} {l : List α} {a b : α}
    (hab : a ≠ b) (ha : a ∈ l) (hb : b ∈ l) : 1 < l.length := by
  cases l with
  | nil => simp at ha
  | cons x xs =>
      cases xs with
      | nil =>
          have ha' : a = x := List.mem_singleton.mp ha
          have hb' : b = x := List.mem_singleton.mp hb
          exact absurd (ha'.trans hb'.symm) hab
      | cons y ys => simp [Nat.lt_add_of_pos_left]

theorem nodup_two_mem_of_one_lt_length {α : Type} {l : List α}
    (hnd : l.Nodup) (hlen : 1 < l.length) :
    ∃ a ∈ l, ∃ b ∈ l, a ≠ b := by
  cases l with
  | nil => simp at hlen
  | cons x xs =>
      cases xs with
      | nil => simp at hlen
      | cons y ys =>
          refine ⟨x, List.mem_cons_self _ _, y,
            List.mem_cons_of_mem _ (List.mem_cons_self _ _), ?_⟩
          intro hEq
          subst hEq
          exact (List.nodup_cons.mp hnd).1 (List.mem_cons_self _ _)

/-- The conflict scan fires exactly when some plain field carries two
distinct recorded shapes, or the `oneOf` bucket carries two distinct
service names. -/
theorem conflicts_iff (reqs : List (String × ReqBucket)) (hwf : WFreqs reqs) :
    requirementConflicts reqs ≠ [] ↔
      ((∃ f, f ≠ "oneOf" ∧ ∃ sh1 ∈ shapeKeysAt reqs f, ∃ sh2 ∈ shapeKeysAt reqs f,
          sh1 ≠ sh2) ∨
       (∃ n1 ∈ oneOfNames reqs, ∃ n2 ∈ oneOfNames reqs, n1 ≠ n2)) := by
  obtain ⟨hnd, hmem⟩ := hwf
  have hfilter : requirementConflicts reqs ≠ [] ↔
      ∃ kv ∈ reqs, kv.2.innerCount > 1 := by
    unfold requirementConflicts
    constructor
    · intro h
      rcases hf : reqs.filter (fun kv => kv.2.innerCount > 1) with _ | ⟨kv, rest⟩
      · rw [hf] at h
        simp at h
      · have : kv ∈ reqs.filter fun kv => kv.2.innerCount > 1 := by
          rw [hf]; exact List.mem_cons_self _ _
        have hm := List.mem_filter.mp this
        exact ⟨kv, hm.1, by simpa using hm.2⟩
    · intro ⟨kv, hkv, hcount⟩
      intro hnil
      have : reqs.filter (fun kv => kv.2.innerCount > 1) = [] := by
        rcases hf : reqs.filter (fun kv => kv.2.innerCount > 1) with _ | ⟨x, xs⟩
        · exact hf
        · rw [hf] at hnil
          simp at hnil
      have := List.filter_eq_nil_iff.mp this kv hkv
      simp [hcount] at this
  rw [hfilter]
  constructor
  · intro ⟨kv, hkv, hcount⟩
    obtain ⟨f, b⟩ := kv
    by_cases hf : f = "oneOf"
    · subst hf
      obtain ⟨inner, hEq, hnd'⟩ := (hmem _ hkv).1 rfl
      subst hEq
      have hlook : lookupA reqs "oneOf" = some (.groups inner) :=
        lookupA_of_mem_nodup hkv hnd
      have hnames : oneOfNames reqs = keysA inner := by
        unfold oneOfNames
        rw [hlook]
      have hlen : 1 < (keysA inner).length := by
        have : (keysA inner).length = inner.length := List.length_map _ _
        rw [this]
        exact hcount
      obtain ⟨a, ha, b', hb, hab⟩ := nodup_two_mem_of_one_lt_length hnd' hlen
      exact Or.inr ⟨a, hnames ▸ ha, b', hnames ▸ hb, hab⟩
    · obtain ⟨inner, hEq, hnd', _⟩ := (hmem _ hkv).2 hf
      subst hEq
      have hlook : lookupA reqs f = some (.shapes inner) :=
        lookupA_of_mem_nodup hkv hnd
      have hkeys : shapeKeysAt reqs f = keysA inner := by
        unfold shapeKeysAt
        rw [hlook]
      have hlen : 1 < (keysA inner).length := by
        have : (keysA inner).length = inner.length := List.length_map _ _
        rw [this]
        exact hcount
      obtain ⟨a, ha, b', hb, hab⟩ := nodup_two_mem_of_one_lt_length hnd' hlen
      exact Or.inl ⟨f, hf, a, hkeys ▸ ha, b', hkeys ▸ hb, hab⟩
  · intro h
    rcases h with ⟨f, hf, sh1, h1, sh2, h2, hne⟩ | ⟨n1, h1, n2, h2, hne⟩
    · rcases hlook : lookupA reqs f with _ | b
      · rw [show shapeKeysAt reqs f = [] by unfold shapeKeysAt; rw [hlook]] at h1
        simp at h1
      · cases b with
        | shapes inner =>
            have hkeys : shapeKeysAt reqs f = keysA inner := by
              unfold shapeKeysAt
              rw [hlook]
            refine ⟨(f, .shapes inner), lookupA_mem hlook, ?_⟩
            show 1 < inner.length
            rw [← List.length_map inner Prod.fst]
            have h1' : sh1 ∈ keysA inner := by rw [hkeys] at h1; exact h1
            have h2' : sh2 ∈ keysA inner := by rw [hkeys] at h2; exact h2
            exact one_lt_length_of_two_mem hne h1' h2'
        | groups inner =>
            rw [show shapeKeysAt reqs f = [] by unfold shapeKeysAt; rw [hlook]] at h1
            simp at h1
    · rcases hlook : lookupA reqs "oneOf" with _ | b
      · rw [show oneOfNames reqs = [] by unfold oneOfNames; rw [hlook]] at h1
        simp at h1
      · cases b with
        | groups inner =>
            have hkeys : oneOfNames reqs = keysA inner := by
              unfold oneOfNames
              rw [hlook]
            refine ⟨("oneOf", .groups inner), lookupA_mem hlook, ?_⟩
            show 1 < inner.length
            rw [← List.length_map inner Prod.fst]
            have h1' : n1 ∈ keysA inner := by rw [hkeys] at h1; exact h1
            have h2' : n2 ∈ keysA inner := by rw [hkeys] at h2; exact h2
            exact one_lt_length_of_two_mem hne h1' h2'
        | shapes inner =>
            rw [show oneOfNames reqs = [] by unfold oneOfNames; rw [hlook]] at h1
            simp at h1

set_option maxRecDepth 8192 in
/-- C7, counterexample.  (1) The 400 response on a genuine shape conflict
(services `alpha`/`beta` requiring field `f` as `string` vs `boolean`)
carries only the fixed generic message — the conflicting services are not
listed (their names do not occur as substrings of the message).  (2) Conversely, a conflict error is produced with *no* field
required under conflicting shapes: two services that each declare only a
`oneOf` group trip the scan, because it counts the `oneOf` bucket's inner
keys (service names) like shapes — even with every declared requirement
satisfiable from the payload. -/
theorem c7_counterexample :
    validateRequestDataForServices registryConflicting [] ["alpha", "beta"]
      = .ok (.response 400 conflictMsg) ∧
    ¬ ("alpha".data <:+: conflictMsg.data) ∧
    ¬ ("beta".data <:+: conflictMsg.data) ∧
    validateRequestDataForServices registryTwoOneOf
      [("x", .str "v"), ("y", .str "v")] ["a", "b"]
      = .ok (.response 400 conflictMsg) :=
  ⟨rfl, by decide, by decide, rfl⟩

/-- C7, amended.  For every set of requested services resolvable in the
registry: the conflict scan fires iff either some field other than `oneOf`
is required with two distinct shapes by requested services, or — spuriously
— at least two distinct requested services declare `oneOf` groups.  When it
fires, the validator returns a single 400-class error carrying the fixed
generic message (which does not name the conflicting services), and the
dispatch step returns it before building any task; when it does not fire,
no conflict error is returned and validation proceeds to the
presence/shape checks. -/
theorem c7_amended (registry : List RegisteredService)
    (requestData : List (String × JsVal)) (serviceTasks : List String)
    (hfound : ∀ s ∈ serviceTasks, ∃ rs,
      registry.find? (fun item => item.name = s) = some rs) :
    ∃ reqs, buildRequirements registry serviceTasks [] = .ok reqs ∧
      ((requirementConflicts reqs ≠ []) ↔
        ((∃ f, f ≠ "oneOf" ∧ ∃ s1 ∈ serviceTasks, ∃ s2 ∈ serviceTasks,
            ∃ sh1 sh2, sh1 ≠ sh2 ∧
            declaresPlain registry s1 f sh1 ∧ declaresPlain registry s2 f sh2) ∨
         (∃ s1 ∈ serviceTasks, ∃ s2 ∈ serviceTasks, s1 ≠ s2 ∧
            declaresOneOf registry s1 ∧ declaresOneOf registry s2))) ∧
      (requirementConflicts reqs ≠ [] →
        validateRequestDataForServices registry requestData serviceTasks
            = .ok (.response 400 conflictMsg) ∧
        (∀ (hashHexF : String → String) (requestId : String),
          doTasksDispatch hashHexF registry requestData serviceTasks requestId
            = .ok (.earlyResponse 400 conflictMsg))) ∧
      (requirementConflicts reqs = [] →
        validateRequestDataForServices registry requestData serviceTasks
          = .ok (if missingDataIssues reqs requestData ≠ []
              then .response 400
                (String.intercalate "\n " (missingDataIssues reqs requestData))
              else .ok)) := by
  have hwfnil : WFreqs [] :=
    ⟨List.nodup_nil, fun kv hkv => absurd hkv (List.not_mem_nil _)⟩
  obtain ⟨reqs, hb, hwf, hshape, honeof⟩ :=
    build_char registry serviceTasks [] hwfnil hfound
  have hshapeNil : ∀ f, shapeKeysAt ([] : List (String × ReqBucket)) f = [] :=
    fun _ => rfl
  have honeofNil : oneOfNames ([] : List (String × ReqBucket)) = [] := rfl
  refine ⟨reqs, hb, ?_, ?_, ?_⟩
  · rw [conflicts_iff reqs hwf]
    constructor
    · intro h
      rcases h with ⟨f, hf, sh1, h1, sh2, h2, hne⟩ | ⟨n1, h1, n2, h2, hne⟩
      · rcases (hshape f hf sh1).mp h1 with h1' | ⟨s1, hs1, hd1⟩
        · rw [hshapeNil] at h1'; simp at h1'
        · rcases (hshape f hf sh2).mp h2 with h2' | ⟨s2, hs2, hd2⟩
          · rw [hshapeNil] at h2'; simp at h2'
          · exact Or.inl ⟨f, hf, s1, hs1, s2, hs2, sh1, sh2, hne, hd1, hd2⟩
      · rcases (honeof n1).mp h1 with h1' | ⟨hs1, hd1⟩
        · rw [honeofNil] at h1'; simp at h1'
        · rcases (honeof n2).mp h2 with h2' | ⟨hs2, hd2⟩
          · rw [honeofNil] at h2'; simp at h2'
          · exact Or.inr ⟨n1, hs1, n2, hs2, hne, hd1, hd2⟩
    · intro h
      rcases h with ⟨f, hf, s1, hs1, s2, hs2, sh1, sh2, hne, hd1, hd2⟩ |
        ⟨s1, hs1, s2, hs2, hne, hd1, hd2⟩
      · refine Or.inl ⟨f, hf, sh1, ?_, sh2, ?_, hne⟩
        · exact (hshape f hf sh1).mpr (Or.inr ⟨s1, hs1, hd1⟩)
        · exact (hshape f hf sh2).mpr (Or.inr ⟨s2, hs2, hd2⟩)
      · refine Or.inr ⟨s1, ?_, s2, ?_, hne⟩
        · exact (honeof s1).mpr (Or.inr ⟨hs1, hd1⟩)
        · exact (honeof s2).mpr (Or.inr ⟨hs2, hd2⟩)
  · intro hc
    have hval : validateRequestDataForServices registry requestData serviceTasks
        = .ok (.response 400 conflictMsg) := by
      unfold validateRequestDataForServices
      rw [hb]
      simp [Except.map, hc]
    refine ⟨hval, ?_⟩
    intro hashHexF requestId
    unfold doTasksDispatch
    rw [hval]
    rfl
  · intro hc
    unfold validateRequestDataForServices
    rw [hb]
    simp only [Except.map, hc]
    simp

/-- C7, witness: the amended theorem applied to the conflicting registry
(`alpha` and `beta` both requiring field `f`, as `string` vs `boolean`). -/
theorem c7_witness :
    (∀ s ∈ (["alpha", "beta"] : List String), ∃ rs,
      registryConflicting.find? (fun item => item.name = s) = some rs) ∧
    validateRequestDataForServices registryConflicting [] ["alpha", "beta"]
      = .ok (.response 400 conflictMsg) := by
  have hf : ∀ s ∈ (["alpha", "beta"] : List String), ∃ rs,
      registryConflicting.find? (fun item => item.name = s) = some rs := by
    intro s hs
    rcases List.mem_cons.mp hs with h | h
    · subst h
      exact ⟨_, rfl⟩
    · rcases List.mem_cons.mp h with h' | h'
      · subst h'
        exact ⟨_, rfl⟩
      · cases h'
  obtain ⟨reqs, hb, _, himp, _⟩ := c7_amended registryConflicting [] ["alpha", "beta"] hf
  have h0 : buildRequirements registryConflicting ["alpha", "beta"] []
      = .ok [("f", ReqBucket.shapes [("string", ["alpha"]), ("boolean", ["beta"])])] :=
    rfl
  rw [h0] at hb
  have hreqs : reqs
      = [("f", ReqBucket.shapes [("string", ["alpha"]), ("boolean", ["beta"])])] :=
    (Except.ok.inj hb).symm
  have hc : requirementConflicts reqs ≠ [] := by
    rw [hreqs]
    decide
  exact ⟨hf, (himp hc).1⟩

end MicroMicro
